import Mathlib

/-!
Verification development for the crawl engine of the `Llms` repository
(`backend/crawler.py`, `backend/utils.py`).

The pure string/URL helpers are embedded directly.  Network access
(`requests`), HTML parsing (`BeautifulSoup`) and robots handling are
abstracted behind an `Oracle`: per URL the oracle fixes the fetch outcome,
the fields that metadata extraction would compute from the page's HTML, the
link lists the link extractor would produce, and the robots verdict.  All
scheduler logic (queues, visited set, defer counters, section counts,
soft-404 gating, budget checks, seeding, fallback) is transcribed from the
source.

Python's `urllib.parse.urlparse` is modelled for the fragment the code
uses (scheme, netloc, path); the model assumes URLs free of embedded tab,
CR, LF, leading/trailing control characters, and bracketed (IPv6) hosts,
which CPython additionally special-cases.
-/

namespace Crawler

/-! ## Character helpers (Python string semantics on ASCII) -/

/-- ASCII letter test (Python `c.isascii() and c.isalpha()`). -/
def asciiAlpha (c : Char) : Bool :=
  decide ((65 ≤ c.toNat ∧ c.toNat ≤ 90) ∨ (97 ≤ c.toNat ∧ c.toNat ≤ 122))

/-- ASCII digit test. -/
def asciiDigit (c : Char) : Bool := decide (48 ≤ c.toNat ∧ c.toNat ≤ 57)

/-- Python `str.lower` on one ASCII character. -/
def pyLowerChar (c : Char) : Char :=
  if 65 ≤ c.toNat ∧ c.toNat ≤ 90 then Char.ofNat (c.toNat + 32) else c

/-- Characters Python's `str.strip()` removes (Python whitespace). -/
def pyWs (c : Char) : Bool :=
  c = ' ' || c = '\t' || c = '\n' || c = '\r' || c = '\x0b' || c = '\x0c'

/-- Lowercase ASCII letter test, i.e. the regex class `[a-z]`. -/
def lowAZ (c : Char) : Bool := 'a' ≤ c && c ≤ 'z'

/-- Uppercase ASCII letter test, i.e. the regex class `[A-Z]`. -/
def upAZ (c : Char) : Bool := 'A' ≤ c && c ≤ 'Z'

/-- Python `str.strip()` on a character list. -/
def pyStripList (l : List Char) : List Char :=
  ((l.dropWhile pyWs).reverse.dropWhile pyWs).reverse

/-- Python `str.strip()`. -/
def pyStrip (s : String) : String := String.mk (pyStripList s.data)

/-- Python `s.strip('/')` on a character list. -/
def stripSlashList (l : List Char) : List Char :=
  ((l.dropWhile (· = '/')).reverse.dropWhile (· = '/')).reverse

/-- Python `s.strip('/')`. -/
def stripSlash (s : String) : String := String.mk (stripSlashList s.data)

/-- Python `s.rstrip('/')` on a character list. -/
def rstripSlashList (l : List Char) : List Char :=
  (l.reverse.dropWhile (· = '/')).reverse

/-- Python `s.rstrip('/')`. -/
def rstripSlash (s : String) : String := String.mk (rstripSlashList s.data)

/-- Python `str.lower()` (ASCII). -/
def pyLower (s : String) : String := String.mk (s.data.map pyLowerChar)

/-- Substring containment `needle in haystack` on character lists. -/
def isSubList (needle haystack : List Char) : Bool :=
  match haystack with
  | [] => needle = []
  | _ :: t => needle.isPrefixOf haystack || isSubList needle t

/-- Python's `needle in haystack` substring test. -/
def containsSub (haystack needle : String) : Bool := isSubList needle.data haystack.data

/-- Python `s.startswith(pre)`. -/
def pyStartsWith (s pre : String) : Bool := pre.data.isPrefixOf s.data

/-! ## `urllib.parse.urlparse`, modelled for scheme / netloc / path

CPython `urlsplit` splits off a scheme at the first `':'` when the prefix
before it is a nonempty run of scheme characters starting with an ASCII
letter (the scheme is lowercased); it then takes a netloc after a leading
`"//"` up to the first of `'/'`, `'?'`, `'#'`; finally, fragment
(after `'#'`) and query (after `'?'`) are cut off the remainder, leaving
the path.  `urlparse` additionally splits `;parameters` off the LAST path
segment (`_splitparams`) when the scheme is in `uses_params`: it searches
for `';'` from the last `'/'` of the path (from the start when the path
has no `'/'`) and cuts the path at the first such `';'`. -/

/-- Characters admissible in a URL scheme (CPython `scheme_chars`). -/
def schemeChar (c : Char) : Bool :=
  asciiAlpha c || asciiDigit c || c = '+' || c = '-' || c = '.'

/-- Scheme split of CPython `urlsplit`: returns `(scheme, rest)`. -/
def splitSchemeL (l : List Char) : List Char × List Char :=
  match l.findIdx? (· = ':') with
  | some i =>
    if 0 < i ∧ (l.take i).all schemeChar ∧ asciiAlpha (l.headD ' ') then
      ((l.take i).map pyLowerChar, l.drop (i + 1))
    else ([], l)
  | none => ([], l)

/-- A netloc delimiter: `'/'`, `'?'` or `'#'`. -/
def netlocDelim (c : Char) : Bool := c = '/' || c = '?' || c = '#'

/-- Netloc split of CPython `urlsplit`: when the rest starts with `"//"`,
the netloc runs up to the first of `'/'`, `'?'`, `'#'`. -/
def splitNetlocL (l : List Char) : List Char × List Char :=
  if l.take 2 = ['/', '/'] then
    ((l.drop 2).takeWhile (fun c => !netlocDelim c),
     (l.drop 2).dropWhile (fun c => !netlocDelim c))
  else ([], l)

/-- Path of CPython `urlsplit`: the remainder before any `'#'` or `'?'`. -/
def splitPathL (l : List Char) : List Char :=
  l.takeWhile (fun c => !(c = '#' || c = '?'))

/-- The schemes for which CPython `urlparse` splits `;parameters` off the
path (`urllib.parse.uses_params`; note that `""` is a member, so
scheme-less URLs are split too). -/
def usesParams : List String :=
  ["", "ftp", "hdl", "prospero", "http", "imap", "https", "shttp", "rtsp",
   "rtspu", "sip", "sips", "mms", "sftp", "tel"]

/-- CPython `_splitparams`, with its caller's `';' in path` guard built
in: when the path contains `'/'`, cut it at the first `';'` at or after
the last `'/'` (CPython `url.find(chr(59), url.rfind(chr(47)))`); when it
has no `'/'`, cut at the first `';'` anywhere; a path with no `';'` at
all, or none in its last segment, is returned unchanged. -/
def splitParamsL (p : List Char) : List Char :=
  if ';' ∈ p then
    if '/' ∈ p then
      if ';' ∈ (p.reverse.takeWhile (fun c => !(c = '/'))).reverse then
        (p.reverse.dropWhile (fun c => !(c = '/'))).reverse ++
          (p.reverse.takeWhile (fun c => !(c = '/'))).reverse.takeWhile
            (fun c => !(c = ';'))
      else p
    else p.takeWhile (fun c => !(c = ';'))
  else p

/-- The components of `urllib.parse.urlparse` that `utils.py` and
`crawler.py` consume. -/
structure UrlParts where
  scheme : String
  netloc : String
  path : String
deriving DecidableEq

/-- Model of `urllib.parse.urlparse` restricted to scheme/netloc/path:
`urlsplit` followed by the `;parameters` split on the path when the
(lowercased) scheme is in `uses_params`. -/
def pyUrlparse (u : String) : UrlParts :=
  let sr := splitSchemeL u.data
  let nr := splitNetlocL sr.2
  let p0 := splitPathL nr.2
  let p := if String.mk sr.1 ∈ usesParams then splitParamsL p0 else p0
  ⟨String.mk sr.1, String.mk nr.1, String.mk p⟩

/-- Core of `normalize_url` (utils.py lines 6-12) on character lists:
`urlparse` (including the `;parameters` split), rebuild
`scheme://netloc+path`, and drop one trailing slash when the result is
longer than one character. -/
def normalizeCore (l : List Char) : List Char :=
  let sr := splitSchemeL l
  let nr := splitNetlocL sr.2
  let p0 := splitPathL nr.2
  let p := if String.mk sr.1 ∈ usesParams then splitParamsL p0 else p0
  let norm := sr.1 ++ [':', '/', '/'] ++ nr.1 ++ p
  if norm.getLast? = some '/' ∧ 1 < norm.length then norm.dropLast else norm

/-- `normalize_url` from `utils.py`: remove fragment/query and one trailing
slash, keeping `scheme://netloc+path`. -/
def normalizeUrl (u : String) : String := String.mk (normalizeCore u.data)

/-- `is_same_domain` from `utils.py` (lines 14-18): netloc equality. -/
def isSameDomain (u1 u2 : String) : Bool :=
  (pyUrlparse u1).netloc = (pyUrlparse u2).netloc


/-! ## Locale deduplication (`crawler.py` lines 661-705) -/

/-- Python `path.split('/')` (single-character separator semantics:
empty string gives one empty field, empty fields are kept). -/
def splitSlashL : List Char → List (List Char)
  | [] => [[]]
  | c :: rest =>
    let r := splitSlashL rest
    if c = '/' then [] :: r
    else (c :: r.headD []) :: r.tail

/-- `_is_locale_segment` (lines 661-671): two lowercase letters, a
hyphenated pair of two-letter codes (second part all-upper or all-lower),
or three lowercase letters. -/
def isLocaleSegment (seg : String) : Bool :=
  match seg.data with
  | [a, b] => lowAZ a && lowAZ b
  | [a, b, c] => lowAZ a && lowAZ b && lowAZ c
  | [a, b, h, c, d] =>
    lowAZ a && lowAZ b && h = '-' && ((upAZ c && upAZ d) || (lowAZ c && lowAZ d))
  | _ => false

/-- `_strip_locale` (lines 673-681): drop a leading locale path segment and
return `netloc` + remaining path as a grouping key. -/
def stripLocale (url : String) : String :=
  let parsed := pyUrlparse url
  let path := stripSlash parsed.path
  match (splitSlashL path.data).map String.mk with
  | seg0 :: restSegs =>
    if isLocaleSegment seg0 then
      parsed.netloc ++ rstripSlash ("/" ++ String.intercalate "/" restSegs)
    else parsed.netloc ++ "/" ++ rstripSlash path
  | [] => parsed.netloc ++ "/" ++ rstripSlash path

/-- Python `x.count('/')`. -/
def countSlash (s : String) : Nat := s.data.count '/'

/-- The sort key `lambda x: (x.count('/'), len(x))` used by both `min`
calls in `_dedupe_urls_by_locale`. -/
def urlOrderKey (s : String) : Nat × Nat := (countSlash s, s.length)

/-- Strict lexicographic comparison of Python 2-tuples of ints. -/
def keyLt (a b : Nat × Nat) : Bool := a.1 < b.1 || (a.1 = b.1 && a.2 < b.2)

/-- Python `min(x :: xs, key)`: the first element attaining the minimum. -/
def pyMinBy (key : String → Nat × Nat) (x : String) (xs : List String) : String :=
  xs.foldl (fun best c => if keyLt (key c) (key best) then c else best) x

/-- The english-variant test of lines 698-699: some path segment both
starts with `"en"` and is a locale segment. -/
def hasEnglishLocaleSeg (u : String) : Bool :=
  ((splitSlashL (stripSlash (pyUrlparse u).path).data).map String.mk).any
    (fun seg => pyStartsWith seg "en" && isLocaleSegment seg)

/-- Append `u` to the group keyed `k`, keeping insertion order of keys
(the Python `groups` dict of lines 687-692). -/
def insertGroup (gs : List (String × List String)) (k : String) (u : String) :
    List (String × List String) :=
  match gs with
  | [] => [(k, [u])]
  | (k0, us) :: rest =>
    if k0 = k then (k0, us ++ [u]) :: rest else (k0, us) :: insertGroup rest k u

/-- The `groups` dict built by `_dedupe_urls_by_locale`, as an ordered
association list. -/
def buildGroups (urls : List String) : List (String × List String) :=
  urls.foldl (fun gs u => insertGroup gs (stripLocale u) u) []

/-- Representative choice of lines 694-704: a singleton group keeps its
member; otherwise prefer the minimal english-tagged variant, else the
minimal member, minimality by `(slash count, length)` with first-wins ties. -/
def pickRepresentative (members : List String) : String :=
  match members with
  | [] => ""
  | [u] => u
  | u :: v :: rest =>
    match (u :: v :: rest).filter hasEnglishLocaleSeg with
    | e :: es => pyMinBy urlOrderKey e es
    | [] => pyMinBy urlOrderKey u (v :: rest)

/-- `_dedupe_urls_by_locale` (lines 683-705). -/
def dedupeUrlsByLocale (urls : List String) : List String :=
  match urls with
  | [] => []
  | _ => (buildGroups urls).map (fun g => pickRepresentative g.2)


/-! ## Page metadata, homepage signature and the soft-404 detector -/

/-- The fields of the `meta_out` dict of `_extract_metadata` that the
scheduler and the soft-404 detector consume.  They are computed from the
page's HTML, which the embedding abstracts: an oracle supplies them per
URL.  `description`, `canonical` and `og_url` may be Python `None`. -/
structure MetaData where
  title : String
  description : Option String
  best_description : String
  canonical : Option String
  og_url : Option String
  structured_urls : List String
  visible_hash : String
  visible_text_len : Nat
  visible_text : String
deriving DecidableEq

/-- `self.homepage_signature` (built at lines 619-627 / 722-730). -/
structure HomeSig where
  url : String
  title : String
  best_description : String
  canonical : String
  og_url : String
  visible_hash : String
  visible_text_len : Nat
deriving DecidableEq

/-- Build the homepage signature from extracted metadata
(`metadata.get(...) or default` chains of lines 619-627). -/
def homeSigOf (url : String) (m : MetaData) : HomeSig :=
  { url := url
    title := m.title
    best_description :=
      if m.best_description ≠ "" then m.best_description else m.description.getD ""
    canonical := m.canonical.getD ""
    og_url := m.og_url.getD ""
    visible_hash := m.visible_hash
    visible_text_len := m.visible_text_len }

/-- Homepage signature built from the minimal fallback record of
`_crawl_page`'s except-branch (lines 608-615 feeding lines 619-627): only
`url` and the generic title are present. -/
def minimalHomeSig (url : String) : HomeSig :=
  { url := url, title := "Untitled", best_description := "", canonical := ""
    og_url := "", visible_hash := "", visible_text_len := 0 }

/-- The not-found indicator phrases of line 460. -/
def notFoundPhrases : List String :=
  ["not found", "page not found", "404", "doesn\x27t exist", "does not exist",
   "could not be found"]

/-- `_is_soft_404` (lines 454-474).  `homeSig = none` models the falsy empty
dict `self.homepage_signature == {}`. -/
def isSoft404 (url : String) (m : MetaData) (homeSig : Option HomeSig) : Bool :=
  match homeSig with
  | none => false
  | some hs =>
    if normalizeUrl url = normalizeUrl hs.url then false
    else
      let t := pyLower m.visible_text
      if notFoundPhrases.any (fun p => containsSub t p) then true
      else
        let canon := m.canonical.getD ""
        let ogu := m.og_url.getD ""
        if canon ≠ "" ∧ normalizeUrl canon = normalizeUrl hs.url then true
        else if ogu ≠ "" ∧ normalizeUrl ogu = normalizeUrl hs.url then true
        else if pyStrip m.title ≠ "" ∧ pyStrip m.best_description ≠ "" ∧
            pyStrip m.title = pyStrip hs.title ∧
            pyStrip m.best_description = pyStrip hs.best_description ∧
            m.visible_text_len < 200 then true
        else if m.visible_hash ≠ "" ∧ m.visible_hash = hs.visible_hash ∧
            m.visible_text_len < 400 then true
        else false

/-- The soft-404 rule exactly as claim C7 words it, for comparison with
`isSoft404`: for a non-homepage page, any of (i) a not-found phrase in the
visible text, (ii) canonical or OG URL normalizing to the homepage URL,
(iii) title and best description both exactly equal to the homepage's with
visible-text length under 200, (iv) visible-text hash equal to the
homepage's with visible-text length under 400. -/
def soft404Claim (url : String) (m : MetaData) (hs : HomeSig) : Bool :=
  if normalizeUrl url = normalizeUrl hs.url then false
  else
    notFoundPhrases.any (fun p => containsSub (pyLower m.visible_text) p) ||
    (normalizeUrl (m.canonical.getD "") = normalizeUrl hs.url ||
     normalizeUrl (m.og_url.getD "") = normalizeUrl hs.url) ||
    (m.title = hs.title && m.best_description = hs.best_description &&
     m.visible_text_len < 200) ||
    (m.visible_hash = hs.visible_hash && m.visible_text_len < 400)

/-! ## The crawl scheduler (`WebCrawler.crawl`, `_crawl_page` and helpers)

Network, HTML parsing and robots parsing are abstracted by an `Oracle`:
per URL it fixes the robots verdict (`_can_fetch`), and the fetch outcome —
`none` for any `_fetch_page` failure or non-200 status, otherwise the
content type verdict, the metadata fields `_extract_metadata` derives from
the HTML (`none` when extraction raises), the two raw link lists of
`_extract_navigation_links` / `_extract_internal_links`, and the `<loc>`
entries sitemap parsing would yield.  Everything downstream of those
HTML-derived values is transcribed from the source.  `time.sleep` is
dropped; the instrumentation fields `fetchLog`, `depthLog` and `popLog`
are ghost state recording fetch and pop events. -/

/-- A successful (HTTP 200) fetch result, with HTML-derived data supplied
by the oracle.  `linksOk = false` models an exception inside the link
extraction block of `_crawl_page` (lines 638-657). -/
structure Response where
  isHtml : Bool
  extract : Option MetaData
  navLinks : List String
  internalLinks : List String
  linksOk : Bool
  sitemapLocs : List String
deriving DecidableEq

/-- The environment of one crawl run. -/
structure Oracle where
  canFetch : String → Bool
  fetch : String → Option Response

/-- One entry of `self.pages`.  `minimal = true` marks the fallback record
appended by `_crawl_page`'s except-branch, which carries no soft-404 flag
(`metadata.get("is_soft_404")` is falsy for it). -/
structure PageRecord where
  url : String
  title : String
  is_soft_404 : Bool
  minimal : Bool
deriving DecidableEq

/-- Python dict lookup with default 0 (for `defer_counts.get(url, 0)` and
the `defaultdict(int)` section counts). -/
def lookupNat : List (String × Nat) → String → Nat
  | [], _ => 0
  | p :: rest, k => if p.1 = k then p.2 else lookupNat rest k

/-- Python dict assignment, preserving key insertion order. -/
def setNat : List (String × Nat) → String → Nat → List (String × Nat)
  | [], k, n => [(k, n)]
  | p :: rest, k, n => if p.1 = k then (k, n) :: rest else p :: setNat rest k n

/-- `self.section_counts[key] += 1`. -/
def bumpSection (sections : List (String × Nat)) (k : String) : List (String × Nat) :=
  setNat sections k (lookupNat sections k + 1)

/-- The crawler's mutable state (fields of `WebCrawler` plus the local
`queued_urls` of `crawl`), with ghost logs of fetch and pop events. -/
structure CrawlState where
  visited : List String
  queued : List String
  defers : List (String × Nat)
  sections : List (String × Nat)
  pages : List PageRecord
  homeSig : Option HomeSig
  fetchLog : List String
  depthLog : List (Nat × String)
  popLog : List (Nat × Bool × String)
deriving DecidableEq

/-- `_get_section_key` (lines 572-579). -/
def sectionKey (url : String) : String :=
  let path := stripSlash (pyUrlparse url).path
  if path = "" then "/"
  else "/" ++ ((splitSlashL path.data).map String.mk).headD ""

/-- `_check_section_dominance` (lines 581-588).  The source compares
`section_count / total_crawled > 0.4` in IEEE doubles; for the integer
magnitudes a crawl can reach this is exactly `5 * count > 2 * total`
(`2/5` is the closest rational with denominator ≤ total to the double
literal `0.4`, and division is correctly rounded). -/
def checkSectionDominance (cs : CrawlState) (url : String) : Bool :=
  if cs.visited.length = 0 then false
  else 2 * cs.visited.length < 5 * lookupNat cs.sections (sectionKey url)

/-- The `extras` loop of lines 647-654: normalized structured-data URLs not
already known, same-domain, capped at 20. -/
def collectExtras (base : String) (nav other : List String) :
    List String → List String → List String
  | [], acc => acc
  | u :: rest, acc =>
    let nu := normalizeUrl u
    let acc2 := if nu ∉ nav ∧ nu ∉ other ∧ isSameDomain nu base then acc ++ [nu] else acc
    if 20 ≤ acc2.length then acc2 else collectExtras base nav other rest acc2

/-- Lines 643-655 of `_crawl_page`: `page_links` filtering, the 30 cap, and
the structured-URL merge. -/
def otherLinksOf (base : String) (structuredUrls navLinks internalLinks : List String) :
    List String :=
  let pageLinks := (internalLinks.filter (fun l =>
    !(navLinks.contains l) && containsSub (pyUrlparse l).path "/")).take 30
  if structuredUrls ≠ [] then
    (collectExtras base navLinks pageLinks structuredUrls [] ++ pageLinks).take 30
  else pageLinks

/-- `_crawl_page` (lines 590-659): fetch, extract (with minimal-record
fallback), homepage-signature capture, soft-404 gate, section count, link
computation.  Returns the updated state and `(nav_links, other_links)`. -/
def crawlPage (o : Oracle) (base : String) (depth : Nat) (cs : CrawlState) (u : String) :
    CrawlState × List String × List String :=
  let cs := { cs with fetchLog := cs.fetchLog ++ [u], depthLog := cs.depthLog ++ [(depth, u)] }
  match o.fetch u with
  | none => (cs, [], [])
  | some r =>
    if !r.isHtml then (cs, [], [])
    else
      match r.extract with
      | some m =>
        let flag := isSoft404 u m cs.homeSig
        let cs := { cs with pages := cs.pages ++ [(⟨u, m.title, flag, false⟩ : PageRecord)] }
        let cs := if normalizeUrl u = normalizeUrl base ∧ cs.homeSig = none then
            { cs with homeSig := some (homeSigOf u m) } else cs
        if flag then (cs, [], [])
        else
          let cs := { cs with sections := bumpSection cs.sections (sectionKey u) }
          if r.linksOk then
            (cs, r.navLinks, otherLinksOf base m.structured_urls r.navLinks r.internalLinks)
          else (cs, [], [])
      | none =>
        let cs := { cs with pages := cs.pages ++ [(⟨u, "Untitled", false, true⟩ : PageRecord)] }
        let cs := if normalizeUrl u = normalizeUrl base ∧ cs.homeSig = none then
            { cs with homeSig := some (minimalHomeSig u) } else cs
        let cs := { cs with sections := bumpSection cs.sections (sectionKey u) }
        if r.linksOk then
          (cs, r.navLinks, otherLinksOf base [] r.navLinks r.internalLinks)
        else (cs, [], [])

/-- State of the depth-tier loop: the current depth's two queues, the two
queues being filled for depth+1, and the crawler state. -/
structure TierState where
  navq : List String
  otherq : List String
  navNext : List String
  otherNext : List String
  cs : CrawlState
deriving DecidableEq

/-- The child-enqueue loop of lines 790-806 for one link list: normalize,
and append when not visited, not queued, budget remains and robots allow. -/
def enqueueLinks (o : Oracle) (mp : Nat) (visited : List String) (links : List String)
    (q queued : List String) : List String × List String :=
  links.foldl (fun acc link =>
    let n := normalizeUrl link
    if n ∉ visited ∧ n ∉ acc.2 ∧ visited.length < mp ∧ o.canFetch n then
      (acc.1 ++ [n], acc.2 ++ [n])
    else acc) (q, queued)

/-- The body of the while loop (lines 755-806) after a candidate `u` has
been popped (`isNav` tells which queue; `navRest`/`otherRest` are the
queues with `u` removed): discard from `queued_urls`, skip if visited or
robots-disallowed, dominance deferral, otherwise fetch and enqueue
children.  The second component is always `true` ("continue looping"). -/
def popStep (o : Oracle) (base : String) (md mp depth : Nat) (ts : TierState)
    (isNav : Bool) (u : String) (navRest otherRest : List String) : TierState × Bool :=
  let cs := { ts.cs with popLog := ts.cs.popLog ++ [(depth, isNav, u)],
                         queued := ts.cs.queued.erase u }
  if u ∈ cs.visited then
    ({ ts with navq := navRest, otherq := otherRest, cs := cs }, true)
  else if !o.canFetch u then
    ({ ts with navq := navRest, otherq := otherRest, cs := cs }, true)
  else if checkSectionDominance cs u = true ∧ isNav = false ∧ lookupNat cs.defers u < 3 then
    ({ ts with navq := navRest, otherq := otherRest ++ [u],
               cs := { cs with defers := setNat cs.defers u (lookupNat cs.defers u + 1),
                               queued := cs.queued ++ [u] } }, true)
  else
    let cs := { cs with visited := cs.visited ++ [u] }
    let res := crawlPage o base depth cs u
    let cs2 := res.1
    if depth < md ∧ cs2.visited.length < mp then
      let en1 := enqueueLinks o mp cs2.visited res.2.1 ts.navNext cs2.queued
      let en2 := enqueueLinks o mp cs2.visited res.2.2 ts.otherNext en1.2
      ({ navq := navRest, otherq := otherRest, navNext := en1.1, otherNext := en2.1,
         cs := { cs2 with queued := en2.2 } }, true)
    else
      ({ navq := navRest, otherq := otherRest, navNext := ts.navNext,
         otherNext := ts.otherNext, cs := cs2 }, true)

/-- One iteration of the while loop of lines 755-806: stop when both
queues are empty or the page budget is reached, else pop with nav priority
(lines 759-764) and process. -/
def stepTier (o : Oracle) (base : String) (md mp depth : Nat) (ts : TierState) :
    TierState × Bool :=
  if ts.navq = [] ∧ ts.otherq = [] then (ts, false)
  else if mp ≤ ts.cs.visited.length then (ts, false)
  else
    match ts.navq, ts.otherq with
    | u :: rest, _ => popStep o base md mp depth ts true u rest ts.otherq
    | [], u :: rest => popStep o base md mp depth ts false u [] rest
    | [], [] => (ts, false)

/-- Weight of one other-queue entry for the termination measure: between 1
and 4, shrinking as its defer count grows. -/
def deferWeight (defers : List (String × Nat)) (u : String) : Nat :=
  4 - min (lookupNat defers u) 3

/-- Sum of entry weights of a queue. -/
def weightSum (q : List String) (defers : List (String × Nat)) : Nat :=
  (q.map (deferWeight defers)).sum

/-- Termination measure of the while loop: nav entries count 1, other
entries count their defer weight.  Every non-stopping iteration strictly
decreases it (deferral trades a weight-`4-k` entry for a weight-`3-k`
one). -/
def tierMeasure (ts : TierState) : Nat :=
  ts.navq.length + weightSum ts.otherq ts.cs.defers

/-- The while loop of lines 755-806 at one depth tier, with explicit fuel.
`runTier` below supplies fuel `tierMeasure ts + 1`, which
`runTierFuel_irrel` proves sufficient: the fuel-0 case is never reached
from it, so this is the loop run to its stop condition. -/
def runTierFuel (o : Oracle) (base : String) (md mp depth : Nat) :
    Nat → TierState → TierState
  | 0, ts => ts
  | f + 1, ts =>
    match stepTier o base md mp depth ts with
    | (ts', true) => runTierFuel o base md mp depth f ts'
    | (ts', false) => ts'

/-- The while loop of lines 755-806 at one depth tier, iterated to its
stop condition (every iteration strictly decreases `tierMeasure`, so
`tierMeasure ts + 1` rounds always suffice). -/
def runTier (o : Oracle) (base : String) (md mp depth : Nat) (ts : TierState) : TierState :=
  runTierFuel o base md mp depth (tierMeasure ts + 1) ts

/-- The `for depth in range(max_depth + 1)` loop of line 754: run each
tier in turn, the queues filled for depth+1 becoming the next tier's
queues.  `remaining` counts the tiers still to run (children are only ever
enqueued one tier ahead, so two queue registers suffice). -/
def runDepths (o : Oracle) (base : String) (md mp : Nat) :
    Nat → Nat → List String → List String → CrawlState → CrawlState
  | 0, _, _, _, cs => cs
  | r + 1, depth, navq, otherq, cs =>
    let ts := runTier o base md mp depth
      { navq := navq, otherq := otherq, navNext := [], otherNext := [], cs := cs }
    runDepths o base md mp r (depth + 1) ts.navNext ts.otherNext ts.cs

/-- The two sitemap URLs probed by `_parse_sitemap` (lines 61-64);
`urljoin(base, '/x')` for an absolute-path suffix keeps scheme and netloc. -/
def sitemapTargets (base : String) : List String :=
  let p := pyUrlparse base
  [p.scheme ++ "://" ++ p.netloc ++ "/sitemap.xml",
   p.scheme ++ "://" ++ p.netloc ++ "/sitemap_index.xml"]

/-- `_parse_sitemap` (lines 59-79): collect same-domain `<loc>` entries,
normalized, from whichever sitemap URLs fetch successfully. -/
def parseSitemap (o : Oracle) (base : String) : List String :=
  (sitemapTargets base).foldl (fun acc sm =>
    match o.fetch sm with
    | some r => acc ++ ((r.sitemapLocs.filter (fun loc => isSameDomain loc base)).map
        normalizeUrl)
    | none => acc) []

/-- Frontier seeding (lines 741-752): locale-deduplicated sitemap URLs
capped at the page budget and filtered by visited/queued/robots, else the
single base URL.  Returns `(nav_queues[0], queued_urls)`. -/
def seedFrontier (o : Oracle) (mp : Nat) (visited : List String) (base : String)
    (locs : List String) : List String × List String :=
  if locs ≠ [] then
    ((dedupeUrlsByLocale locs).take mp).foldl (fun acc url =>
      let n := normalizeUrl url
      if n ∉ visited ∧ n ∉ acc.2 ∧ o.canFetch n then (acc.1 ++ [n], acc.2 ++ [n])
      else acc) ([], [])
  else ([normalizeUrl base], [normalizeUrl base])

/-- The homepage-signature precapture of `crawl` (lines 715-732): when
robots allow, fetch the base URL once and, on a 200 HTML response whose
extraction succeeds, record the homepage signature; any failure is
swallowed by the surrounding `try`. -/
def precapture (o : Oracle) (base : String) (cs0 : CrawlState) : CrawlState :=
  if o.canFetch base then
    let cs := { cs0 with fetchLog := cs0.fetchLog ++ [base] }
    match o.fetch base with
    | some r =>
      if r.isHtml then
        match r.extract with
        | some m => { cs with homeSig := some (homeSigOf base m) }
        | none => cs
      else cs
    | none => cs
  else cs0

/-- The empty-result fallback of `crawl` (lines 808-812): one direct fetch
of the base URL, accepted unconditionally.  Its `_extract_metadata` call at
line 811 sits outside every `try`/`except`, so an extraction failure there
escapes `crawl` — the `Except.error` case. -/
def fallbackStep (o : Oracle) (base : String) (stF : CrawlState) : Except Unit CrawlState :=
  if stF.pages = [] then
    let stL := { stF with fetchLog := stF.fetchLog ++ [base] }
    match o.fetch base with
    | some r =>
      match r.extract with
      | some m =>
        .ok { stL with pages :=
          stL.pages ++ [(⟨base, m.title, isSoft404 base m stL.homeSig, false⟩ : PageRecord)] }
      | none => .error ()
    | none => .ok stL
  else .ok stF

/-- The initial crawler state (a fresh `WebCrawler` instance). -/
def initState : CrawlState :=
  { visited := [], queued := [], defers := [], sections := [], pages := []
    homeSig := none, fetchLog := [], depthLog := [], popLog := [] }

/-- `WebCrawler.crawl` (lines 707-814) for a crawler constructed with the
given base URL, `max_depth = md` and `max_pages = mp`: homepage-signature
precapture, sitemap or base seeding, the depth loop, and the empty-result
fallback.  The fallback calls `_extract_metadata` outside any
`try`/`except` (line 811), so an extraction failure there is the one spot
where an exception escapes `crawl` — modelled as `Except.error ()`. -/
def crawl (o : Oracle) (rawBase : String) (md mp : Nat) : Except Unit CrawlState :=
  let base := normalizeUrl rawBase
  let cs1 := precapture o base initState
  let locs := parseSitemap o base
  let seeds := seedFrontier o mp cs1.visited base locs
  let cs2 := { cs1 with queued := seeds.2 }
  let stF := runDepths o base md mp (md + 1) 0 seeds.1 [] cs2
  fallbackStep o base stF

/-! ## Invariant of a crawl run, and concrete runs for the claims -/

/-- Run invariant tying the ghost logs to the crawler state: loop fetches
are exactly the visited URLs in order, each visited at most once, at most
one page record per fetch, the budget is respected, every loop fetch
happens at a depth within bound, and with no homepage signature no record
is flagged soft-404. -/
def CrawlInv (md mp : Nat) (st : CrawlState) : Prop :=
  st.visited = st.depthLog.map Prod.snd ∧
  st.visited.Nodup ∧
  st.pages.length ≤ st.visited.length ∧
  st.visited.length ≤ mp ∧
  (∀ e ∈ st.depthLog, e.1 ≤ md) ∧
  (st.homeSig = none → ∀ p ∈ st.pages, p.is_soft_404 = false)

/-- Page list of a crawl result (empty when the crawl raised). -/
def pagesOf (r : Except Unit CrawlState) : List PageRecord :=
  match r with
  | .ok st => st.pages
  | .error _ => []

/-- Fetch log of a crawl result. -/
def fetchLogOf (r : Except Unit CrawlState) : List String :=
  match r with
  | .ok st => st.fetchLog
  | .error _ => []

/-- Homepage metadata served by the test site. -/
def mHome : MetaData :=
  { title := "Home", description := some "A site.",
    best_description := "Welcome to the example site.", canonical := none, og_url := none,
    structured_urls := [], visible_hash := "hh", visible_text_len := 500,
    visible_text := "hello world home page" }

/-- Homepage response: one nav link to an error page. -/
def rHome : Response :=
  { isHtml := true, extract := some mHome, navLinks := ["http://s/x"], internalLinks := [],
    linksOk := true, sitemapLocs := [] }

/-- A page whose visible text carries a not-found phrase, so the soft-404
detector flags it. -/
def mX : MetaData :=
  { title := "T2", description := none, best_description := "B2", canonical := none,
    og_url := none, structured_urls := [], visible_hash := "zz", visible_text_len := 50,
    visible_text := "error 404" }

/-- Response for the soft-404 page. -/
def rX : Response :=
  { isHtml := true, extract := some mX, navLinks := [], internalLinks := [],
    linksOk := true, sitemapLocs := [] }

/-- Site serving a homepage and one soft-404 page; robots allow all, no
sitemap. -/
def oHappy : Oracle :=
  { canFetch := fun _ => true,
    fetch := fun u =>
      if u = "http://s" then some rHome
      else if u = "http://s/x" then some rX
      else none }

/-- Totally unreachable host: every fetch fails. -/
def oFail : Oracle :=
  { canFetch := fun _ => true, fetch := fun _ => none }

/-- Host whose robots.txt disallows the base URL, and whose base page is a
200 HTML response on which metadata extraction raises. -/
def oBug : Oracle :=
  { canFetch := fun u => if u = "http://s" then false else true,
    fetch := fun u =>
      if u = "http://s" then
        some { isHtml := true, extract := none, navLinks := [], internalLinks := [],
               linksOk := true, sitemapLocs := [] }
      else none }

/-- Homepage signature of the C7 counterexample: an extraction in which no
best description was found (`best_description = ""`, a reachable outcome of
`_extract_best_description` and the collision guard). -/
def hsC7 : HomeSig :=
  { url := "http://s", title := "Untitled", best_description := "", canonical := ""
    og_url := "", visible_hash := "h1", visible_text_len := 50 }

/-- A thin page whose title and (empty) best description coincide with the
homepage signature, with visible text length 100. -/
def mC7 : MetaData :=
  { title := "Untitled", description := none, best_description := "", canonical := none,
    og_url := none, structured_urls := [], visible_hash := "h2", visible_text_len := 100,
    visible_text := "welcome page" }

/-- The final state of a crawl of the unreachable host `oFail`. -/
def failState : CrawlState :=
  { visited := ["http://s"], queued := [], defers := [], sections := [], pages := [],
    homeSig := none, fetchLog := ["http://s", "http://s", "http://s"],
    depthLog := [(0, "http://s")], popLog := [(0, true, "http://s")] }

/-- Tier-loop state for the C1 witness: depth 1, the soft-404 page at the
head of the nav queue, homepage already visited with its signature set. -/
def tsC1 : TierState :=
  { navq := ["http://s/x"], otherq := [], navNext := [], otherNext := [],
    cs := { visited := ["http://s"], queued := [], defers := [], sections := [("/", 1)],
            pages := [(⟨"http://s", "Home", false, false⟩ : PageRecord)],
            homeSig := some (homeSigOf "http://s" mHome),
            fetchLog := ["http://s", "http://s"], depthLog := [(0, "http://s")],
            popLog := [(0, true, "http://s")] } }

/-- Crawler state for the C5 witness: one page fetched, all of it in
section `/blog`, and a `/blog` candidate waiting in the other queue. -/
def csC5 : CrawlState :=
  { visited := ["http://s/blog/a"], queued := ["http://s/blog/b"], defers := [],
    sections := [("/blog", 1)], pages := [], homeSig := none,
    fetchLog := ["http://s/blog/a"], depthLog := [(0, "http://s/blog/a")],
    popLog := [(0, true, "http://s/blog/a")] }

/-- Tier-loop state for the C5 witness (defer count 0). -/
def tsC5 : TierState :=
  { navq := [], otherq := ["http://s/blog/b"], navNext := [], otherNext := [], cs := csC5 }

/-- Tier-loop state for the C5 witness after three deferrals. -/
def tsC5b : TierState :=
  { navq := [], otherq := ["http://s/blog/b"], navNext := [], otherNext := [],
    cs := { csC5 with defers := [("http://s/blog/b", 3)] } }

/-- Tier-loop state for the C6 witness: one nav and one other candidate. -/
def tsC6 : TierState :=
  { navq := ["http://s"], otherq := ["http://s/x"], navNext := [], otherNext := [],
    cs := initState }

theorem lookupNat_setNat (l : List (String × Nat)) (k : String) (n : Nat) (k' : String) :
    lookupNat (setNat l k n) k' = if k' = k then n else lookupNat l k' := by
  induction l with
  | nil =>
    simp only [setNat, lookupNat]
    by_cases h : k' = k
    · simp [h]
    · rw [if_neg (fun h2 => h h2.symm), if_neg h]
  | cons p rest ih =>
    simp only [setNat]
    by_cases hp : p.1 = k
    · rw [if_pos hp]
      simp only [lookupNat]
      by_cases h : k' = k
      · rw [if_pos h.symm, if_pos h]
      · rw [if_neg (fun h2 => h h2.symm), if_neg h,
          if_neg (fun h2 => h (hp.symm.trans h2).symm)]
    · rw [if_neg hp]
      simp only [lookupNat, ih]
      by_cases h : k' = k
      · rw [if_pos h, if_neg (fun h2 => hp (h ▸ h2)), if_pos h]
      · rw [if_neg h, if_neg h]

theorem deferWeight_pos (d : List (String × Nat)) (u : String) : 1 ≤ deferWeight d u := by
  unfold deferWeight
  have h := Nat.min_le_right (lookupNat d u) 3
  omega

theorem weightSum_nil (d : List (String × Nat)) : weightSum [] d = 0 := rfl

theorem weightSum_cons (u : String) (q : List String) (d : List (String × Nat)) :
    weightSum (u :: q) d = deferWeight d u + weightSum q d := by
  simp [weightSum]

theorem weightSum_append (q1 q2 : List String) (d : List (String × Nat)) :
    weightSum (q1 ++ q2) d = weightSum q1 d + weightSum q2 d := by
  simp [weightSum]

theorem weightSum_mono (q : List String) (d d' : List (String × Nat))
    (h : ∀ v, lookupNat d v ≤ lookupNat d' v) : weightSum q d' ≤ weightSum q d := by
  induction q with
  | nil => simp [weightSum]
  | cons v rest ih =>
    rw [weightSum_cons, weightSum_cons]
    have h1 : deferWeight d' v ≤ deferWeight d v := by
      unfold deferWeight
      exact Nat.sub_le_sub_left (min_le_min (h v) (le_refl 3)) 4
    omega

theorem crawlPage_defers (o : Oracle) (base : String) (depth : Nat) (cs : CrawlState)
    (u : String) : (crawlPage o base depth cs u).1.defers = cs.defers := by
  unfold crawlPage
  rcases h : o.fetch u with _ | r <;> simp [h]
  rcases hx : r.extract with _ | m <;> simp [hx] <;> split_ifs <;> simp

theorem popStep_measure (o : Oracle) (base : String) (md mp depth : Nat) (ts : TierState)
    (isNav : Bool) (u : String) (navRest otherRest : List String)
    (hcase : (isNav = true ∧ ts.navq = u :: navRest ∧ otherRest = ts.otherq) ∨
      (isNav = false ∧ ts.navq = [] ∧ navRest = [] ∧ ts.otherq = u :: otherRest)) :
    tierMeasure (popStep o base md mp depth ts isNav u navRest otherRest).1 < tierMeasure ts := by
  unfold popStep
  dsimp only
  rcases hcase with ⟨hnav, hq, ho⟩ | ⟨hnav, hq, hr, ho⟩
  · subst hnav; subst ho
    split_ifs with h1 h2 h3 h4
    · simp [tierMeasure, hq, List.length_cons]
    · simp [tierMeasure, hq, List.length_cons]
    · exact absurd h3.2.1 (by simp)
    · simp [tierMeasure, hq, List.length_cons, crawlPage_defers]
    · simp [tierMeasure, hq, List.length_cons, crawlPage_defers]
  · subst hnav; subst hr
    have hw := deferWeight_pos ts.cs.defers u
    split_ifs with h1 h2 h3 h4
    · simp [tierMeasure, hq, ho, weightSum_cons]; omega
    · simp [tierMeasure, hq, ho, weightSum_cons]; omega
    · have hk := h3.2.2
      set k := lookupNat ts.cs.defers u with hkdef
      have hmono : weightSum otherRest
          (setNat ts.cs.defers u (k + 1)) ≤ weightSum otherRest ts.cs.defers := by
        apply weightSum_mono
        intro v
        rw [lookupNat_setNat]
        by_cases hv : v = u
        · subst hv; rw [if_pos rfl, ← hkdef]; omega
        · rw [if_neg hv]
      have hlk : lookupNat (setNat ts.cs.defers u (k + 1)) u = k + 1 := by
        rw [lookupNat_setNat, if_pos rfl]
      have hw1 : deferWeight (setNat ts.cs.defers u (k + 1)) u = 3 - k := by
        unfold deferWeight
        rw [hlk, Nat.min_eq_left (by omega)]
        omega
      have hw2 : deferWeight ts.cs.defers u = 4 - k := by
        unfold deferWeight
        rw [← hkdef, Nat.min_eq_left (by omega)]
      simp only [tierMeasure, hq, ho, weightSum_cons, weightSum_append]
      simp only [List.length_nil, weightSum_cons, weightSum_nil]
      rw [hw1, hw2]
      omega
    · simp only [tierMeasure, hq, ho, weightSum_cons, List.length_nil, crawlPage_defers]
      simp [crawlPage_defers]
      omega
    · simp only [tierMeasure, hq, ho, weightSum_cons, List.length_nil, crawlPage_defers]
      simp [crawlPage_defers]
      omega

theorem stepTier_measure (o : Oracle) (base : String) (md mp depth : Nat)
    (ts ts' : TierState) (h : stepTier o base md mp depth ts = (ts', true)) :
    tierMeasure ts' < tierMeasure ts := by
  unfold stepTier at h
  split_ifs at h with h1 h2
  · simp at h
  · simp at h
  · rcases hq : ts.navq with _ | ⟨u, rest⟩
    · rcases ho : ts.otherq with _ | ⟨v, orest⟩
      · exact absurd ⟨hq, ho⟩ h1
      · rw [hq, ho] at h
        dsimp only at h
        have := popStep_measure o base md mp depth ts false v [] orest
          (Or.inr ⟨rfl, hq, rfl, ho⟩)
        rw [h] at this
        exact this
    · rw [hq] at h
      dsimp only at h
      have := popStep_measure o base md mp depth ts true u rest ts.otherq
        (Or.inl ⟨rfl, hq, rfl⟩)
      rw [h] at this
      exact this

theorem runTierFuel_irrel (o : Oracle) (base : String) (md mp depth : Nat) :
    ∀ f f' : Nat, ∀ ts : TierState, tierMeasure ts < f → tierMeasure ts < f' →
      runTierFuel o base md mp depth f ts = runTierFuel o base md mp depth f' ts := by
  intro f
  induction f with
  | zero => intro f' ts h; omega
  | succ g ih =>
    intro f' ts h h'
    rcases f' with _ | g'
    · omega
    rcases hs : stepTier o base md mp depth ts with ⟨ts2, cont⟩
    rcases cont with _ | _
    · simp [runTierFuel, hs]
    · have hm := stepTier_measure o base md mp depth ts ts2 hs
      simp only [runTierFuel, hs]
      exact ih g' ts2 (by omega) (by omega)

/-- Unfolding equation: a continuing iteration. -/
theorem runTier_step (o : Oracle) (base : String) (md mp depth : Nat)
    (ts ts' : TierState) (h : stepTier o base md mp depth ts = (ts', true)) :
    runTier o base md mp depth ts = runTier o base md mp depth ts' := by
  have hm := stepTier_measure o base md mp depth ts ts' h
  unfold runTier
  conv =>
    lhs
    rw [runTierFuel, h]
  exact runTierFuel_irrel o base md mp depth (tierMeasure ts) (tierMeasure ts' + 1) ts'
    (by omega) (by omega)

/-- Unfolding equation: a stopping iteration. -/
theorem runTier_stop (o : Oracle) (base : String) (md mp depth : Nat)
    (ts ts' : TierState) (h : stepTier o base md mp depth ts = (ts', false)) :
    runTier o base md mp depth ts = ts' := by
  unfold runTier
  rw [runTierFuel, h]

/-! ## Lemmas about the URL normalizer (claim C8) -/

theorem char_toNat_ofNat (n : Nat) (h : n.isValidChar) : (Char.ofNat n).toNat = n := by
  unfold Char.ofNat
  rw [dif_pos h]
  rfl

theorem pyLowerChar_toNat (c : Char) :
    (pyLowerChar c).toNat =
      if 65 ≤ c.toNat ∧ c.toNat ≤ 90 then c.toNat + 32 else c.toNat := by
  unfold pyLowerChar
  split_ifs with h
  · exact char_toNat_ofNat _ (Or.inl (by omega))
  · rfl

theorem pyLowerChar_idem (c : Char) : pyLowerChar (pyLowerChar c) = pyLowerChar c := by
  unfold pyLowerChar
  by_cases h : 65 ≤ c.toNat ∧ c.toNat ≤ 90
  · rw [if_pos h]
    have ht : (Char.ofNat (c.toNat + 32)).toNat = c.toNat + 32 :=
      char_toNat_ofNat _ (Or.inl (by omega))
    rw [if_neg (by rw [ht]; omega)]
  · rw [if_neg h, if_neg h]

theorem pyLowerChar_eq_self (c : Char) (h : ¬(65 ≤ c.toNat ∧ c.toNat ≤ 90)) :
    pyLowerChar c = c := by
  unfold pyLowerChar
  rw [if_neg h]

theorem asciiAlpha_pyLower (c : Char) (h : asciiAlpha c = true) :
    asciiAlpha (pyLowerChar c) = true := by
  unfold asciiAlpha at h ⊢
  simp only [decide_eq_true_eq] at h ⊢
  rw [pyLowerChar_toNat]
  split_ifs with hc
  · omega
  · omega

theorem schemeChar_pyLower (c : Char) (h : schemeChar c = true) :
    schemeChar (pyLowerChar c) = true := by
  unfold schemeChar at h ⊢
  simp only [Bool.or_eq_true] at h ⊢
  rcases h with (((ha | hd) | hp) | hm) | he
  · exact Or.inl (Or.inl (Or.inl (Or.inl (asciiAlpha_pyLower c ha))))
  · have hr : 48 ≤ c.toNat ∧ c.toNat ≤ 57 := by
      unfold asciiDigit at hd
      simpa using hd
    rw [pyLowerChar_eq_self c (by omega)]
    exact Or.inl (Or.inl (Or.inl (Or.inr hd)))
  · simp only [decide_eq_true_eq] at hp
    subst hp
    decide
  · simp only [decide_eq_true_eq] at hm
    subst hm
    decide
  · simp only [decide_eq_true_eq] at he
    subst he
    decide

theorem schemeChar_ne_colon (c : Char) (h : schemeChar c = true) : ¬(c = ':') := by
  intro he
  subst he
  revert h
  decide

theorem findIdx_colon_concat (s r : List Char) (hs : ∀ c ∈ s, ¬(c = ':')) :
    (s ++ ':' :: r).findIdx? (· = ':') = some s.length := by
  rw [List.findIdx?_append]
  have h1 : s.findIdx? (· = ':') = none := by
    rw [List.findIdx?_eq_none_iff]
    intro x hx
    simpa using hs x hx
  rw [h1]
  simp

theorem take_length_append (s r : List Char) : (s ++ r).take s.length = s :=
  List.take_left s r

theorem splitSchemeL_concat (s r : List Char) (hne : s ≠ [])
    (hall : s.all schemeChar = true) (hhead : asciiAlpha (s.headD ' ') = true)
    (hlow : s.map pyLowerChar = s) :
    splitSchemeL (s ++ ':' :: r) = (s, r) := by
  have hallm : ∀ c ∈ s, schemeChar c = true := List.all_eq_true.mp hall
  have hnc : ∀ c ∈ s, ¬(c = ':') := fun c hc => schemeChar_ne_colon c (hallm c hc)
  unfold splitSchemeL
  rw [findIdx_colon_concat s r hnc]
  dsimp only
  have htk : (s ++ ':' :: r).take s.length = s := List.take_left s _
  have hdp : (s ++ ':' :: r).drop (s.length + 1) = r := by
    have : s ++ ':' :: r = (s ++ [':']) ++ r := by simp
    rw [this]
    exact List.drop_left' (by simp)
  rw [if_pos]
  · rw [htk, hdp, hlow]
  · refine ⟨List.length_pos.mpr hne, ?_, ?_⟩
    · rw [htk]
      exact hall
    · rcases s with _ | ⟨c, s'⟩
      · exact absurd rfl hne
      · simpa using hhead

theorem takeWhile_eq_self_of {p : Char → Bool} {l : List Char}
    (h : ∀ c ∈ l, p c = true) : l.takeWhile p = l := by
  induction l with
  | nil => rfl
  | cons a t ih =>
    rw [List.takeWhile_cons, if_pos (h a (List.mem_cons_self a t))]
    rw [ih (fun c hc => h c (List.mem_cons_of_mem a hc))]

theorem splitNetlocL_no_delim (l : List Char) :
    ∀ c ∈ (splitNetlocL l).1, netlocDelim c = false := by
  unfold splitNetlocL
  split_ifs with h
  · intro c hc
    have := List.mem_takeWhile_imp hc
    simpa using this
  · intro c hc
    simp at hc

theorem splitPathL_no_stop (l : List Char) :
    ∀ c ∈ splitPathL l, ¬(c = '#' ∨ c = '?') := by
  unfold splitPathL
  intro c hc
  have := List.mem_takeWhile_imp hc
  simpa using this

theorem splitParamsL_no_semi (p : List Char) (h : ';' ∉ p) : splitParamsL p = p := by
  unfold splitParamsL
  rw [if_neg h]

theorem splitParamsL_subset (p : List Char) : ∀ c ∈ splitParamsL p, c ∈ p := by
  intro c hc
  unfold splitParamsL at hc
  split_ifs at hc with h1 h2 h3
  · rcases List.mem_append.mp hc with hpre | hseg
    · have h4 : c ∈ p.reverse.dropWhile (fun c => !(c = '/')) := List.mem_reverse.mp hpre
      exact List.mem_reverse.mp ((List.dropWhile_sublist _).subset h4)
    · have h4 : c ∈ (p.reverse.takeWhile (fun c => !(c = '/'))).reverse :=
        (List.takeWhile_sublist _).subset hseg
      have h5 : c ∈ p.reverse.takeWhile (fun c => !(c = '/')) := List.mem_reverse.mp h4
      exact List.mem_reverse.mp ((List.takeWhile_sublist _).subset h5)
  · exact hc
  · exact (List.takeWhile_sublist _).subset hc
  · exact hc

theorem normalizeCore_shape (l s r n r2 P : List Char)
    (hsp : splitSchemeL l = (s, r)) (hnp : splitNetlocL r = (n, r2))
    (hP : P = if String.mk s ∈ usesParams then splitParamsL (splitPathL r2)
              else splitPathL r2) :
    normalizeCore l =
      if (s ++ ':' :: '/' :: '/' :: (n ++ P)).getLast? = some '/' ∧
          1 < (s ++ ':' :: '/' :: '/' :: (n ++ P)).length
      then (s ++ ':' :: '/' :: '/' :: (n ++ P)).dropLast
      else s ++ ':' :: '/' :: '/' :: (n ++ P) := by
  subst hP
  unfold normalizeCore
  rw [hsp]
  dsimp only
  rw [hnp]
  dsimp only
  rw [show s ++ [':', '/', '/'] ++ n ++
      (if String.mk s ∈ usesParams then splitParamsL (splitPathL r2)
       else splitPathL r2) =
    s ++ ':' :: '/' :: '/' ::
      (n ++ (if String.mk s ∈ usesParams then splitParamsL (splitPathL r2)
             else splitPathL r2)) by simp [List.append_assoc]]

theorem reparse_fixed (s X : List Char) (hne : s ≠ [])
    (hall : s.all schemeChar = true) (hhead : asciiAlpha (s.headD ' ') = true)
    (hlow : s.map pyLowerChar = s)
    (hX : ∀ c ∈ X, ¬(c = '#' ∨ c = '?'))
    (hsemi : ';' ∉ X)
    (hlast : ¬((s ++ ':' :: '/' :: '/' :: X).getLast? = some '/')) :
    normalizeCore (s ++ ':' :: '/' :: '/' :: X) = s ++ ':' :: '/' :: '/' :: X := by
  have e1 : splitSchemeL (s ++ ':' :: '/' :: '/' :: X) = (s, '/' :: '/' :: X) :=
    splitSchemeL_concat s _ hne hall hhead hlow
  have e2 : splitNetlocL ('/' :: '/' :: X) =
      (X.takeWhile (fun c => !netlocDelim c), X.dropWhile (fun c => !netlocDelim c)) := by
    unfold splitNetlocL
    rw [if_pos (show List.take 2 ('/' :: '/' :: X) = ['/', '/'] from rfl)]
    rfl
  have e3 : splitPathL (X.dropWhile (fun c => !netlocDelim c)) =
      X.dropWhile (fun c => !netlocDelim c) := by
    unfold splitPathL
    apply takeWhile_eq_self_of
    intro c hc
    have hm : c ∈ X := (List.dropWhile_sublist _).subset hc
    have := hX c hm
    simp only [Bool.not_eq_true']
    simp only [Bool.or_eq_false_iff]
    constructor <;> simp_all
  have e4 : (if String.mk s ∈ usesParams
        then splitParamsL (X.dropWhile (fun c => !netlocDelim c))
        else X.dropWhile (fun c => !netlocDelim c)) =
      X.dropWhile (fun c => !netlocDelim c) := by
    split_ifs with hm
    · exact splitParamsL_no_semi _
        (fun hc => hsemi ((List.dropWhile_sublist _).subset hc))
    · rfl
  unfold normalizeCore
  rw [e1]
  simp only [e2, e3, e4]
  have hre : s ++ [':', '/', '/'] ++ X.takeWhile (fun c => !netlocDelim c) ++
      X.dropWhile (fun c => !netlocDelim c) = s ++ ':' :: '/' :: '/' :: X := by
    simp only [List.append_assoc]
    rw [List.takeWhile_append_dropWhile]
    rfl
  rw [hre, if_neg]
  intro hcon
  exact hlast hcon.1

theorem splitSchemeL_props (l s r : List Char) (he : splitSchemeL l = (s, r)) (h : s ≠ []) :
    s.all schemeChar = true ∧ asciiAlpha (s.headD ' ') = true ∧ s.map pyLowerChar = s := by
  unfold splitSchemeL at he
  rcases hf : l.findIdx? (· = ':') with _ | i <;> rw [hf] at he
  · dsimp only at he
    injection he with he1 he2
    exact absurd he1.symm h
  · dsimp only at he
    split_ifs at he with hc
    · injection he with he1 he2
      obtain ⟨hi, hall, hhd⟩ := hc
      subst he1
      refine ⟨?_, ?_, ?_⟩
      · rw [List.all_map]
        rw [List.all_eq_true] at hall ⊢
        intro x hx
        exact schemeChar_pyLower x (hall x hx)
      · rcases l with _ | ⟨c, t⟩
        · simp at hf
        · rcases i with _ | j
          · omega
          · simp only [List.take_succ_cons, List.map_cons, List.headD_cons]
            exact asciiAlpha_pyLower c (by simpa using hhd)
      · rw [List.map_map]
        apply List.map_congr_left
        intro a _
        exact pyLowerChar_idem a
    · injection he with he1 he2
      exact absurd he1.symm h

theorem string_mk_data (s : String) : String.mk s.data = s := rfl

theorem normalizeUrl_idem_of (u : String)
    (h1 : (pyUrlparse u).scheme ≠ "")
    (h2 : ¬((normalizeUrl u).data.getLast? = some '/'))
    (h3 : ¬(';' ∈ (normalizeUrl u).data)) :
    normalizeUrl (normalizeUrl u) = normalizeUrl u := by
  rcases hsp : splitSchemeL u.data with ⟨s, r⟩
  have hs : s ≠ [] := by
    intro he
    apply h1
    show (pyUrlparse u).scheme = ""
    unfold pyUrlparse
    rw [hsp]
    dsimp only
    rw [he]
  obtain ⟨hall, hhd, hlow⟩ := splitSchemeL_props u.data s r hsp hs
  rcases hnp : splitNetlocL r with ⟨n, r2⟩
  obtain ⟨P, hPdef⟩ : ∃ P, P =
      (if String.mk s ∈ usesParams then splitParamsL (splitPathL r2)
       else splitPathL r2) := ⟨_, rfl⟩
  have hPsub : ∀ c ∈ P, c ∈ splitPathL r2 := by
    rw [hPdef]
    split_ifs with hm
    · exact splitParamsL_subset _
    · exact fun c hc => hc
  have hXf : ∀ c ∈ n ++ P, ¬(c = '#' ∨ c = '?') := by
    intro c hc
    rcases List.mem_append.mp hc with hcn | hcp
    · have hd := splitNetlocL_no_delim r c (by rw [hnp]; exact hcn)
      unfold netlocDelim at hd
      simp only [Bool.or_eq_false_iff, decide_eq_false_iff_not] at hd
      rintro (hh | hh) <;> subst hh <;> tauto
    · exact splitPathL_no_stop r2 c (hPsub c hcp)
  have hnorm : normalizeCore u.data =
      if (s ++ ':' :: '/' :: '/' :: (n ++ P)).getLast? = some '/' ∧
          1 < (s ++ ':' :: '/' :: '/' :: (n ++ P)).length
      then (s ++ ':' :: '/' :: '/' :: (n ++ P)).dropLast
      else s ++ ':' :: '/' :: '/' :: (n ++ P) :=
    normalizeCore_shape u.data s r n r2 P hsp hnp hPdef
  by_cases hstrip : (s ++ ':' :: '/' :: '/' :: (n ++ P)).getLast? = some '/' ∧
      1 < (s ++ ':' :: '/' :: '/' :: (n ++ P)).length
  · rw [if_pos hstrip] at hnorm
    by_cases hX0e : n ++ P = []
    · exfalso
      apply h2
      have hdata : (normalizeUrl u).data =
          (s ++ ':' :: '/' :: '/' :: (n ++ P)).dropLast := by
        show normalizeCore u.data = _
        rw [hnorm]
      rw [hdata, hX0e]
      rw [show s ++ ':' :: '/' :: '/' :: ([] : List Char) = s ++ [':', '/', '/'] from rfl]
      rw [List.dropLast_append_of_ne_nil _ (by simp)]
      simp
    · have hdrop : (s ++ ':' :: '/' :: '/' :: (n ++ P)).dropLast =
          s ++ ':' :: '/' :: '/' :: (n ++ P).dropLast := by
        rw [show s ++ ':' :: '/' :: '/' :: (n ++ P) =
          (s ++ [':', '/', '/']) ++ (n ++ P) by simp]
        rw [List.dropLast_append_of_ne_nil _ hX0e]
        simp
      have hXf1 : ∀ c ∈ (n ++ P).dropLast, ¬(c = '#' ∨ c = '?') :=
        fun c hc => hXf c ((List.dropLast_sublist _).subset hc)
      have hdata : (normalizeUrl u).data =
          s ++ ':' :: '/' :: '/' :: (n ++ P).dropLast := by
        show normalizeCore u.data = _
        rw [hnorm, hdrop]
      have hsemi1 : ';' ∉ (n ++ P).dropLast := by
        intro hc
        apply h3
        rw [hdata]
        exact List.mem_append.mpr (Or.inr (by simp [hc]))
      have hl : ¬((s ++ ':' :: '/' :: '/' :: (n ++ P).dropLast).getLast? =
          some '/') := by
        rw [← hdata]
        exact h2
      have hrep := reparse_fixed s _ hs hall hhd hlow hXf1 hsemi1 hl
      have hfin : normalizeUrl (normalizeUrl u) =
          String.mk (normalizeCore (normalizeUrl u).data) := rfl
      rw [hfin, hdata, hrep, ← hdata, string_mk_data]
  · rw [if_neg hstrip] at hnorm
    have hdata : (normalizeUrl u).data = s ++ ':' :: '/' :: '/' :: (n ++ P) := by
      show normalizeCore u.data = _
      rw [hnorm]
    have hsemi1 : ';' ∉ (n ++ P) := by
      intro hc
      apply h3
      rw [hdata]
      exact List.mem_append.mpr (Or.inr (by simp [hc]))
    have hl : ¬((s ++ ':' :: '/' :: '/' :: (n ++ P)).getLast? = some '/') := by
      rw [← hdata]
      exact h2
    have hrep := reparse_fixed s _ hs hall hhd hlow hXf hsemi1 hl
    have hfin : normalizeUrl (normalizeUrl u) =
        String.mk (normalizeCore (normalizeUrl u).data) := rfl
    rw [hfin, hdata, hrep, ← hdata, string_mk_data]

/-- The `;parameters` split in action, matching CPython: one application
of the normalizer leaves the `;p` of `http://e.com/a;p/` in place (it is
not after the last slash) but strips the trailing slash, exposing it; the
next application then cuts it, as CPython does for
`urlparse("http://e.com/a;p").path`. -/
theorem normalizeUrl_params_example :
    normalizeUrl "http://e.com/a;p/" = "http://e.com/a;p" ∧
    normalizeUrl "http://e.com/a;p" = "http://e.com/a" := by
  decide

/-! ## Lemmas about the locale deduplicator (claim C9) -/

theorem pyMinBy_mem (key : String → Nat × Nat) (x : String) (xs : List String) :
    pyMinBy key x xs ∈ x :: xs := by
  induction xs generalizing x with
  | nil => simp [pyMinBy]
  | cons c cs ih =>
    unfold pyMinBy at ih ⊢
    rw [List.foldl_cons]
    have h := ih (if keyLt (key c) (key x) then c else x)
    by_cases hk : keyLt (key c) (key x) = true
    · rw [if_pos hk] at h ⊢
      exact List.mem_cons_of_mem x h
    · rw [if_neg hk] at h ⊢
      rcases List.mem_cons.mp h with h1 | h1
      · rw [h1]
        exact List.mem_cons_self _ _
      · exact List.mem_cons_of_mem _ (List.mem_cons_of_mem _ h1)

theorem pickRepresentative_mem (ms : List String) (h : ms ≠ []) :
    pickRepresentative ms ∈ ms := by
  rcases ms with _ | ⟨u, _ | ⟨v, rest⟩⟩
  · exact absurd rfl h
  · simp [pickRepresentative]
  · rcases hf : (u :: v :: rest).filter hasEnglishLocaleSeg with _ | ⟨e, es⟩
    · unfold pickRepresentative
      dsimp only
      rw [hf]
      exact pyMinBy_mem urlOrderKey u (v :: rest)
    · have hmem := pyMinBy_mem urlOrderKey e es
      have hsub : ∀ y ∈ e :: es, y ∈ u :: v :: rest := by
        intro y hy
        rw [← hf] at hy
        exact List.mem_of_mem_filter hy
      unfold pickRepresentative
      dsimp only
      rw [hf]
      exact hsub _ hmem

theorem insertGroup_keys (gs : List (String × List String)) (k : String) (u : String) :
    (insertGroup gs k u).map Prod.fst =
      if k ∈ gs.map Prod.fst then gs.map Prod.fst else gs.map Prod.fst ++ [k] := by
  induction gs with
  | nil => simp [insertGroup]
  | cons g rest ih =>
    unfold insertGroup
    by_cases hg : g.1 = k
    · rw [if_pos hg]
      simp [hg]
    · rw [if_neg hg]
      simp only [List.map_cons, ih]
      by_cases hk : k ∈ rest.map Prod.fst
      · rw [if_pos hk, if_pos (by simp [hk])]
      · rw [if_neg hk, if_neg (by simp [hk, Ne.symm hg]), List.cons_append]

theorem insertGroup_members (gs : List (String × List String)) (k : String) (u : String)
    (hmem : ∀ g ∈ gs, g.2 ≠ [] ∧ ∀ m ∈ g.2, stripLocale m = g.1)
    (hku : stripLocale u = k) :
    ∀ g ∈ insertGroup gs k u, g.2 ≠ [] ∧ ∀ m ∈ g.2, stripLocale m = g.1 := by
  induction gs with
  | nil =>
    intro g hg
    simp only [insertGroup, List.mem_singleton] at hg
    subst hg
    refine ⟨by simp, ?_⟩
    intro m hm
    simp only [List.mem_singleton] at hm
    subst hm
    exact hku
  | cons g0 rest ih =>
    intro g hg
    unfold insertGroup at hg
    by_cases hg0 : g0.1 = k
    · rw [if_pos hg0] at hg
      rcases List.mem_cons.mp hg with h1 | h1
      · have hm0 := hmem g0 (List.mem_cons_self _ _)
        subst h1
        refine ⟨by simp, ?_⟩
        intro m hm
        simp only at hm
        rcases List.mem_append.mp hm with h2 | h2
        · show stripLocale m = g0.1
          exact hm0.2 m h2
        · simp only [List.mem_singleton] at h2
          rw [h2]
          show stripLocale u = g0.1
          rw [hg0]
          exact hku
      · exact hmem g (List.mem_cons_of_mem _ h1)
    · rw [if_neg hg0] at hg
      rcases List.mem_cons.mp hg with h1 | h1
      · subst h1
        exact hmem g0 (List.mem_cons_self _ _)
      · exact ih (fun g2 hg2 => hmem g2 (List.mem_cons_of_mem _ hg2)) g h1

theorem insertGroup_nodup (gs : List (String × List String)) (k : String) (u : String)
    (hkeys : (gs.map Prod.fst).Nodup) :
    ((insertGroup gs k u).map Prod.fst).Nodup := by
  rw [insertGroup_keys]
  split_ifs with h
  · exact hkeys
  · rw [List.nodup_append]
    refine ⟨hkeys, by simp, ?_⟩
    intro a ha hb
    simp only [List.mem_singleton] at hb
    subst hb
    exact h ha

theorem buildGroupsAux_inv (urls : List String) (gs : List (String × List String))
    (hkeys : (gs.map Prod.fst).Nodup)
    (hmem : ∀ g ∈ gs, g.2 ≠ [] ∧ ∀ m ∈ g.2, stripLocale m = g.1) :
    ((urls.foldl (fun acc u => insertGroup acc (stripLocale u) u) gs).map Prod.fst).Nodup ∧
    ∀ g ∈ urls.foldl (fun acc u => insertGroup acc (stripLocale u) u) gs,
      g.2 ≠ [] ∧ ∀ m ∈ g.2, stripLocale m = g.1 := by
  induction urls generalizing gs with
  | nil => exact ⟨hkeys, hmem⟩
  | cons u t ih =>
    rw [List.foldl_cons]
    exact ih (insertGroup gs (stripLocale u) u)
      (insertGroup_nodup gs _ u hkeys)
      (insertGroup_members gs _ u hmem rfl)

theorem buildGroups_inv (urls : List String) :
    ((buildGroups urls).map Prod.fst).Nodup ∧
    ∀ g ∈ buildGroups urls, g.2 ≠ [] ∧ ∀ m ∈ g.2, stripLocale m = g.1 :=
  buildGroupsAux_inv urls [] (by simp) (by simp)

theorem dedupe_eq_map (u0 : String) (t0 : List String) :
    dedupeUrlsByLocale (u0 :: t0) =
      (buildGroups (u0 :: t0)).map (fun g => pickRepresentative g.2) := rfl

theorem dedupe_strip_keys (u0 : String) (t0 : List String) :
    (dedupeUrlsByLocale (u0 :: t0)).map stripLocale =
      (buildGroups (u0 :: t0)).map Prod.fst := by
  rw [dedupe_eq_map, List.map_map]
  apply List.map_congr_left
  intro g hg
  have hinv := (buildGroups_inv (u0 :: t0)).2 g hg
  have hm := pickRepresentative_mem g.2 hinv.1
  exact hinv.2 _ hm

theorem insertGroup_fresh (gs : List (String × List String)) (k : String) (u : String)
    (h : k ∉ gs.map Prod.fst) : insertGroup gs k u = gs ++ [(k, [u])] := by
  induction gs with
  | nil => rfl
  | cons g rest ih =>
    unfold insertGroup
    rw [if_neg (by intro he; exact h (by simp [he]))]
    rw [ih (by intro hm; exact h (by simp [hm]))]
    rfl

theorem buildGroups_of_nodup (l : List String) (gs : List (String × List String))
    (h : ((gs.map Prod.fst) ++ l.map stripLocale).Nodup) :
    l.foldl (fun acc u => insertGroup acc (stripLocale u) u) gs =
      gs ++ l.map (fun u => (stripLocale u, [u])) := by
  induction l generalizing gs with
  | nil => simp
  | cons u t ih =>
    rw [List.foldl_cons]
    have hfresh : stripLocale u ∉ gs.map Prod.fst := by
      intro hm
      have h2 := h
      rw [List.map_cons] at h2
      rw [show gs.map Prod.fst ++ stripLocale u :: t.map stripLocale =
        (gs.map Prod.fst ++ [stripLocale u]) ++ t.map stripLocale from by simp] at h2
      have h3 := h2.of_append_left
      rw [List.nodup_append] at h3
      exact h3.2.2 hm (List.mem_singleton.mpr rfl)
    rw [insertGroup_fresh gs _ u hfresh]
    rw [ih]
    · simp
    · rw [List.map_cons] at h
      rw [show gs.map Prod.fst ++ stripLocale u :: t.map stripLocale =
        (gs.map Prod.fst ++ [stripLocale u]) ++ t.map stripLocale from by simp] at h
      simpa using h

theorem dedupe_idem_general (urls : List String) :
    dedupeUrlsByLocale (dedupeUrlsByLocale urls) = dedupeUrlsByLocale urls := by
  rcases urls with _ | ⟨u0, t0⟩
  · rfl
  · have hnd : ((dedupeUrlsByLocale (u0 :: t0)).map stripLocale).Nodup := by
      rw [dedupe_strip_keys]
      exact (buildGroups_inv (u0 :: t0)).1
    rcases hDe : dedupeUrlsByLocale (u0 :: t0) with _ | ⟨d0, dt⟩
    · rfl
    · rw [hDe] at hnd
      rw [dedupe_eq_map]
      unfold buildGroups
      rw [buildGroups_of_nodup (d0 :: dt) [] (by simpa using hnd)]
      simp only [List.nil_append, List.map_map]
      rw [show ((fun g => pickRepresentative g.2) ∘ fun u => (stripLocale u, [u])) =
        fun u => u from rfl]
      simp

/-! ## Effect lemmas for one page crawl -/

theorem crawlPage_fields (o : Oracle) (b : String) (d : Nat) (cs : CrawlState) (u : String) :
    (crawlPage o b d cs u).1.visited = cs.visited ∧
    (crawlPage o b d cs u).1.queued = cs.queued ∧
    (crawlPage o b d cs u).1.popLog = cs.popLog ∧
    (crawlPage o b d cs u).1.fetchLog = cs.fetchLog ++ [u] ∧
    (crawlPage o b d cs u).1.depthLog = cs.depthLog ++ [(d, u)] := by
  unfold crawlPage
  rcases h : o.fetch u with _ | r <;> simp [h]
  rcases hx : r.extract with _ | m <;> simp [hx] <;> split_ifs <;> simp

theorem crawlPage_pages_len (o : Oracle) (b : String) (d : Nat) (cs : CrawlState)
    (u : String) : (crawlPage o b d cs u).1.pages.length ≤ cs.pages.length + 1 := by
  unfold crawlPage
  rcases h : o.fetch u with _ | r <;> simp [h]
  rcases hx : r.extract with _ | m <;> simp [hx] <;> split_ifs <;> simp

theorem crawlPage_homeSig_none (o : Oracle) (b : String) (d : Nat) (cs : CrawlState)
    (u : String) (h : (crawlPage o b d cs u).1.homeSig = none) : cs.homeSig = none := by
  unfold crawlPage at h
  rcases hf : o.fetch u with _ | r <;> rw [hf] at h <;> simp at h
  · exact h
  rcases hx : r.extract with _ | m <;> rw [hx] at h <;> dsimp only at h <;>
    split_ifs at h <;> simp_all

theorem isSoft404_none (u : String) (m : MetaData) : isSoft404 u m none = false := rfl

theorem crawlPage_soft404_inv (o : Oracle) (b : String) (d : Nat) (cs : CrawlState)
    (u : String) (hn : cs.homeSig = none)
    (hp : ∀ p ∈ cs.pages, p.is_soft_404 = false) :
    ∀ p ∈ (crawlPage o b d cs u).1.pages, p.is_soft_404 = false := by
  unfold crawlPage
  rcases hf : o.fetch u with _ | r <;> simp [hf]
  · exact hp
  rcases hx : r.extract with _ | m <;> simp [hx] <;> split_ifs <;>
    simp_all [isSoft404_none] <;>
    (intro p hp2
     rcases hp2 with h2 | h2
     · exact hp p h2
     · subst h2
       rfl)

/-! ## Preservation of the crawl invariant -/

theorem popStep_snd (o : Oracle) (b : String) (md mp d : Nat) (ts : TierState)
    (isNav : Bool) (u : String) (nr orr : List String) :
    (popStep o b md mp d ts isNav u nr orr).2 = true := by
  unfold popStep
  dsimp only
  split_ifs <;> rfl

theorem popStep_inv (o : Oracle) (b : String) (md mp d : Nat) (ts : TierState)
    (isNav : Bool) (u : String) (nr orr : List String)
    (hd : d ≤ md) (hbud : ts.cs.visited.length < mp) (hinv : CrawlInv md mp ts.cs) :
    CrawlInv md mp (popStep o b md mp d ts isNav u nr orr).1.cs := by
  obtain ⟨h1, h2, h3, h4, h5, h6⟩ := hinv
  unfold popStep
  dsimp only
  split_ifs with hv hcf hdom
  · exact ⟨h1, h2, h3, h4, h5, h6⟩
  · exact ⟨h1, h2, h3, h4, h5, h6⟩
  · exact ⟨h1, h2, h3, h4, h5, h6⟩
  all_goals {
    have hcp := crawlPage_fields o b d
      { ts.cs with
        popLog := ts.cs.popLog ++ [(d, isNav, u)],
        queued := (ts.cs.queued.erase u),
        visited := ts.cs.visited ++ [u] } u
    have hlen := crawlPage_pages_len o b d
      { ts.cs with
        popLog := ts.cs.popLog ++ [(d, isNav, u)],
        queued := (ts.cs.queued.erase u),
        visited := ts.cs.visited ++ [u] } u
    obtain ⟨hv1, hq1, hp1, hf1, hd1⟩ := hcp
    refine ⟨?_, ?_, ?_, ?_, ?_, ?_⟩
    · simp only [hv1, hd1]
      try dsimp only
      rw [List.map_append, h1]
      rfl
    · simp only [hv1]
      try dsimp only
      rw [List.nodup_append]
      refine ⟨h2, by simp, ?_⟩
      intro a ha hb
      simp only [List.mem_singleton] at hb
      subst hb
      exact hv ha
    · simp only [hv1]
      try dsimp only
      calc _ ≤ ts.cs.pages.length + 1 := hlen
        _ ≤ ts.cs.visited.length + 1 := by omega
        _ = (ts.cs.visited ++ [u]).length := by simp
    · simp only [hv1]
      try dsimp only
      simp only [List.length_append, List.length_singleton]
      omega
    · simp only [hd1]
      try dsimp only
      intro e he
      rcases List.mem_append.mp he with hh | hh
      · exact h5 e hh
      · simp only [List.mem_singleton] at hh
        subst hh
        exact hd
    · intro hnone
      have hn0 : ({ ts.cs with
          popLog := ts.cs.popLog ++ [(d, isNav, u)],
          queued := (ts.cs.queued.erase u),
          visited := ts.cs.visited ++ [u] } : CrawlState).homeSig = none :=
        crawlPage_homeSig_none o b d _ u hnone
      have hn1 : ts.cs.homeSig = none := hn0
      exact crawlPage_soft404_inv o b d _ u hn0 (h6 hn1)
  }

theorem stepTier_inv (o : Oracle) (b : String) (md mp d : Nat) (ts : TierState)
    (hd : d ≤ md) (hinv : CrawlInv md mp ts.cs) :
    CrawlInv md mp (stepTier o b md mp d ts).1.cs := by
  unfold stepTier
  split_ifs with hq hbud
  · exact hinv
  · exact hinv
  · rcases hn : ts.navq with _ | ⟨u, rest⟩
    · rcases ho : ts.otherq with _ | ⟨v, orest⟩
      · exact hinv
      · dsimp only
        exact popStep_inv o b md mp d ts false v [] orest hd (by omega) hinv
    · dsimp only
      exact popStep_inv o b md mp d ts true u rest ts.otherq hd (by omega) hinv

theorem stepTier_stop_eq (o : Oracle) (b : String) (md mp d : Nat) (ts ts2 : TierState)
    (h : stepTier o b md mp d ts = (ts2, false)) : ts2 = ts := by
  unfold stepTier at h
  split_ifs at h <;>
    first
    | (injection h with hh1 hh2; exact hh1.symm)
    | skip
  rcases hn : ts.navq with _ | ⟨u, rest⟩ <;> rw [hn] at h
  · rcases ho : ts.otherq with _ | ⟨v, orest⟩ <;> rw [ho] at h
    · dsimp only at h
      injection h with hh1 hh2
      exact hh1.symm
    · dsimp only at h
      have := popStep_snd o b md mp d ts false v [] orest
      rw [h] at this
      simp at this
  · dsimp only at h
    have := popStep_snd o b md mp d ts true u rest ts.otherq
    rw [h] at this
    simp at this

theorem runTier_inv (o : Oracle) (b : String) (md mp d : Nat) (hd : d ≤ md) :
    ∀ n : Nat, ∀ ts : TierState, tierMeasure ts ≤ n → CrawlInv md mp ts.cs →
      CrawlInv md mp (runTier o b md mp d ts).cs := by
  intro n
  induction n with
  | zero =>
    intro ts hm hinv
    rcases hs : stepTier o b md mp d ts with ⟨ts2, cont⟩
    rcases cont with _ | _
    · rw [runTier_stop o b md mp d ts ts2 hs]
      rw [stepTier_stop_eq o b md mp d ts ts2 hs]
      exact hinv
    · have := stepTier_measure o b md mp d ts ts2 hs
      omega
  | succ g ih =>
    intro ts hm hinv
    rcases hs : stepTier o b md mp d ts with ⟨ts2, cont⟩
    rcases cont with _ | _
    · rw [runTier_stop o b md mp d ts ts2 hs]
      rw [stepTier_stop_eq o b md mp d ts ts2 hs]
      exact hinv
    · rw [runTier_step o b md mp d ts ts2 hs]
      have hmm := stepTier_measure o b md mp d ts ts2 hs
      have hinv2 : CrawlInv md mp ts2.cs := by
        have := stepTier_inv o b md mp d ts hd hinv
        rw [hs] at this
        exact this
      exact ih ts2 (by omega) hinv2

theorem runDepths_inv (o : Oracle) (b : String) (md mp : Nat) :
    ∀ r d : Nat, ∀ navq otherq : List String, ∀ cs : CrawlState,
      d + r ≤ md + 1 → CrawlInv md mp cs →
      CrawlInv md mp (runDepths o b md mp r d navq otherq cs) := by
  intro r
  induction r with
  | zero => intro d navq otherq cs hdr hinv; exact hinv
  | succ g ih =>
    intro d navq otherq cs hdr hinv
    unfold runDepths
    apply ih
    · omega
    · exact runTier_inv o b md mp d (by omega) (tierMeasure
        { navq := navq, otherq := otherq, navNext := [], otherNext := [], cs := cs })
        { navq := navq, otherq := otherq, navNext := [], otherNext := [], cs := cs }
        (le_refl _) hinv

theorem precapture_inv (o : Oracle) (b : String) (md mp : Nat) (cs0 : CrawlState)
    (hinv : CrawlInv md mp cs0) : CrawlInv md mp (precapture o b cs0) := by
  obtain ⟨h1, h2, h3, h4, h5, h6⟩ := hinv
  unfold precapture
  split_ifs with hc
  · rcases hf : o.fetch b with _ | r <;> dsimp only
    · exact ⟨h1, h2, h3, h4, h5, h6⟩
    · split_ifs with hh
      · rcases hx : r.extract with _ | m <;> dsimp only
        · exact ⟨h1, h2, h3, h4, h5, h6⟩
        · refine ⟨h1, h2, h3, h4, h5, ?_⟩
          intro hn
          simp at hn
      · exact ⟨h1, h2, h3, h4, h5, h6⟩
  · exact ⟨h1, h2, h3, h4, h5, h6⟩

theorem fallbackStep_inv (o : Oracle) (b : String) (md mp : Nat) (stF st : CrawlState)
    (hinv : CrawlInv md mp stF)
    (h : fallbackStep o b stF = .ok st) :
    st.pages.length ≤ max mp 1 ∧ (∀ e ∈ st.depthLog, e.1 ≤ md) ∧
    (st.depthLog.map Prod.snd).Nodup ∧
    (st.homeSig = none → ∀ p ∈ st.pages, p.is_soft_404 = false) := by
  obtain ⟨h1, h2, h3, h4, h5, h6⟩ := hinv
  have hnodup : (stF.depthLog.map Prod.snd).Nodup := h1 ▸ h2
  unfold fallbackStep at h
  split_ifs at h with hp
  · rcases hf : o.fetch b with _ | r <;> rw [hf] at h <;> dsimp only at h
    · injection h with hh
      subst hh
      refine ⟨?_, h5, hnodup, ?_⟩
      · show stF.pages.length ≤ _
        rw [hp]
        simp
      · intro hn p hpp
        exact h6 hn p hpp
    · rcases hx : r.extract with _ | m <;> rw [hx] at h <;> dsimp only at h
      · exact absurd h (by simp)
      · injection h with hh
        subst hh
        refine ⟨?_, h5, hnodup, ?_⟩
        · show (stF.pages ++ [_]).length ≤ _
          rw [hp]
          simp
        · intro hn p hpp
          rcases List.mem_append.mp hpp with hh2 | hh2
          · exact h6 hn p hh2
          · simp only [List.mem_singleton] at hh2
            subst hh2
            show isSoft404 b m stF.homeSig = false
            rw [show stF.homeSig = none from hn]
            rfl
  · injection h with hh
    subst hh
    refine ⟨?_, h5, hnodup, h6⟩
    calc stF.pages.length ≤ stF.visited.length := h3
      _ ≤ mp := h4
      _ ≤ max mp 1 := le_max_left _ _

theorem initState_inv (md mp : Nat) : CrawlInv md mp initState := by
  refine ⟨rfl, ?_, ?_, ?_, ?_, ?_⟩ <;> simp [initState]

theorem crawl_inv (o : Oracle) (rb : String) (md mp : Nat) (st : CrawlState)
    (h : crawl o rb md mp = .ok st) :
    st.pages.length ≤ max mp 1 ∧ (∀ e ∈ st.depthLog, e.1 ≤ md) ∧
    (st.depthLog.map Prod.snd).Nodup ∧
    (st.homeSig = none → ∀ p ∈ st.pages, p.is_soft_404 = false) := by
  unfold crawl at h
  dsimp only at h
  have hpre := precapture_inv o (normalizeUrl rb) md mp initState (initState_inv md mp)
  have hrun := runDepths_inv o (normalizeUrl rb) md mp (md + 1) 0
    (seedFrontier o mp (precapture o (normalizeUrl rb) initState).visited (normalizeUrl rb)
      (parseSitemap o (normalizeUrl rb))).1 []
    { precapture o (normalizeUrl rb) initState with
      queued := (seedFrontier o mp (precapture o (normalizeUrl rb) initState).visited
        (normalizeUrl rb) (parseSitemap o (normalizeUrl rb))).2 }
    (by omega) hpre
  exact fallbackStep_inv o (normalizeUrl rb) md mp _ st hrun h

/-! ## Characterization of the soft-404 detector (claim C7) -/

theorem isSoft404_iff (url : String) (m : MetaData) (hs : HomeSig) :
    isSoft404 url m (some hs) = true ↔
      (normalizeUrl url ≠ normalizeUrl hs.url ∧
        (notFoundPhrases.any (fun p => containsSub (pyLower m.visible_text) p) = true ∨
         (m.canonical.getD "" ≠ "" ∧ normalizeUrl (m.canonical.getD "") = normalizeUrl hs.url) ∨
         (m.og_url.getD "" ≠ "" ∧ normalizeUrl (m.og_url.getD "") = normalizeUrl hs.url) ∨
         (pyStrip m.title ≠ "" ∧ pyStrip m.best_description ≠ "" ∧
          pyStrip m.title = pyStrip hs.title ∧
          pyStrip m.best_description = pyStrip hs.best_description ∧
          m.visible_text_len < 200) ∨
         (m.visible_hash ≠ "" ∧ m.visible_hash = hs.visible_hash ∧
          m.visible_text_len < 400))) := by
  unfold isSoft404
  dsimp only
  split_ifs with h1 h2 h3 h4 h5 h6
  · exact iff_of_false (by simp) (fun hc => hc.1 h1)
  · exact iff_of_true rfl ⟨h1, Or.inl h2⟩
  · exact iff_of_true rfl ⟨h1, Or.inr (Or.inl h3)⟩
  · exact iff_of_true rfl ⟨h1, Or.inr (Or.inr (Or.inl h4))⟩
  · exact iff_of_true rfl ⟨h1, Or.inr (Or.inr (Or.inr (Or.inl h5)))⟩
  · exact iff_of_true rfl ⟨h1, Or.inr (Or.inr (Or.inr (Or.inr h6)))⟩
  · refine iff_of_false (by simp) ?_
    rintro ⟨hne, hd | hd | hd | hd | hd⟩
    · exact absurd hd h2
    · exact absurd hd h3
    · exact absurd hd h4
    · exact absurd hd h5
    · exact absurd hd h6

/-! ## Effect lemmas for one loop iteration (claims C1, C5, C6) -/

theorem crawlPage_visited (o : Oracle) (b : String) (d : Nat) (cs : CrawlState)
    (u : String) : (crawlPage o b d cs u).1.visited = cs.visited :=
  (crawlPage_fields o b d cs u).1

theorem crawlPage_queued (o : Oracle) (b : String) (d : Nat) (cs : CrawlState)
    (u : String) : (crawlPage o b d cs u).1.queued = cs.queued :=
  (crawlPage_fields o b d cs u).2.1

theorem crawlPage_popLog (o : Oracle) (b : String) (d : Nat) (cs : CrawlState)
    (u : String) : (crawlPage o b d cs u).1.popLog = cs.popLog :=
  (crawlPage_fields o b d cs u).2.2.1

theorem crawlPage_fetchLog (o : Oracle) (b : String) (d : Nat) (cs : CrawlState)
    (u : String) : (crawlPage o b d cs u).1.fetchLog = cs.fetchLog ++ [u] :=
  (crawlPage_fields o b d cs u).2.2.2.1

theorem popStep_navq (o : Oracle) (b : String) (md mp d : Nat) (ts : TierState)
    (isNav : Bool) (u : String) (nr orr : List String) :
    (popStep o b md mp d ts isNav u nr orr).1.navq = nr := by
  unfold popStep
  dsimp only
  split_ifs <;> rfl

theorem popStep_popLog (o : Oracle) (b : String) (md mp d : Nat) (ts : TierState)
    (isNav : Bool) (u : String) (nr orr : List String) :
    (popStep o b md mp d ts isNav u nr orr).1.cs.popLog =
      ts.cs.popLog ++ [(d, isNav, u)] := by
  unfold popStep
  dsimp only
  split_ifs <;> simp [crawlPage_popLog]

theorem stepTier_true_of_other (o : Oracle) (b : String) (md mp d : Nat) (ts ts2 : TierState)
    (hnav : ts.navq = []) (hs : stepTier o b md mp d ts = (ts2, true)) :
    ∃ v orest, ts.otherq = v :: orest ∧
      ts2 = (popStep o b md mp d ts false v [] orest).1 := by
  unfold stepTier at hs
  split_ifs at hs with h1 h2
  · simp at hs
  · simp at hs
  · rw [hnav] at hs
    rcases ho : ts.otherq with _ | ⟨v, orest⟩ <;> rw [ho] at hs <;> dsimp only at hs
    · simp at hs
    · refine ⟨v, orest, rfl, ?_⟩
      rw [hs]

theorem stepTier_true_of_nav (o : Oracle) (b : String) (md mp d : Nat) (ts ts2 : TierState)
    (u : String) (rest : List String) (hnav : ts.navq = u :: rest)
    (hs : stepTier o b md mp d ts = (ts2, true)) :
    ts2 = (popStep o b md mp d ts true u rest ts.otherq).1 := by
  unfold stepTier at hs
  split_ifs at hs with h1 h2
  · simp at hs
  · simp at hs
  · rw [hnav] at hs
    dsimp only at hs
    rw [hs]

theorem runTier_other_only (o : Oracle) (b : String) (md mp d : Nat) :
    ∀ n : Nat, ∀ ts : TierState, tierMeasure ts ≤ n → ts.navq = [] →
      ∃ ys, (runTier o b md mp d ts).cs.popLog = ts.cs.popLog ++ ys ∧
        ∀ e ∈ ys, e.2.1 = false := by
  intro n
  induction n with
  | zero =>
    intro ts hm hnav
    rcases hs : stepTier o b md mp d ts with ⟨ts2, cont⟩
    rcases cont with _ | _
    · rw [runTier_stop o b md mp d ts ts2 hs, stepTier_stop_eq o b md mp d ts ts2 hs]
      exact ⟨[], by simp, by simp⟩
    · have := stepTier_measure o b md mp d ts ts2 hs
      omega
  | succ g ih =>
    intro ts hm hnav
    rcases hs : stepTier o b md mp d ts with ⟨ts2, cont⟩
    rcases cont with _ | _
    · rw [runTier_stop o b md mp d ts ts2 hs, stepTier_stop_eq o b md mp d ts ts2 hs]
      exact ⟨[], by simp, by simp⟩
    · obtain ⟨v, orest, ho, hts2⟩ := stepTier_true_of_other o b md mp d ts ts2 hnav hs
      have hmm := stepTier_measure o b md mp d ts ts2 hs
      have hnav2 : ts2.navq = [] := by
        rw [hts2]
        exact popStep_navq o b md mp d ts false v [] orest
      have hlog2 : ts2.cs.popLog = ts.cs.popLog ++ [(d, false, v)] := by
        rw [hts2]
        exact popStep_popLog o b md mp d ts false v [] orest
      obtain ⟨ys, hys, hall⟩ := ih ts2 (by omega) hnav2
      rw [runTier_step o b md mp d ts ts2 hs]
      refine ⟨(d, false, v) :: ys, ?_, ?_⟩
      · rw [hys, hlog2]
        simp
      · intro e he
        rcases List.mem_cons.mp he with hh | hh
        · rw [hh]
        · exact hall e hh

theorem runTier_popLog_shape (o : Oracle) (b : String) (md mp d : Nat) :
    ∀ n : Nat, ∀ ts : TierState, tierMeasure ts ≤ n →
      ∃ xs ys, (runTier o b md mp d ts).cs.popLog = ts.cs.popLog ++ xs ++ ys ∧
        (∀ e ∈ xs, e.2.1 = true) ∧ (∀ e ∈ ys, e.2.1 = false) := by
  intro n
  induction n with
  | zero =>
    intro ts hm
    rcases hnav : ts.navq with _ | ⟨u, rest⟩
    · obtain ⟨ys, hys, hall⟩ := runTier_other_only o b md mp d 0 ts hm hnav
      exact ⟨[], ys, by simpa using hys, by simp, hall⟩
    · rcases hs : stepTier o b md mp d ts with ⟨ts2, cont⟩
      rcases cont with _ | _
      · rw [runTier_stop o b md mp d ts ts2 hs, stepTier_stop_eq o b md mp d ts ts2 hs]
        exact ⟨[], [], by simp, by simp, by simp⟩
      · have := stepTier_measure o b md mp d ts ts2 hs
        omega
  | succ g ih =>
    intro ts hm
    rcases hnav : ts.navq with _ | ⟨u, rest⟩
    · obtain ⟨ys, hys, hall⟩ := runTier_other_only o b md mp d (g + 1) ts hm hnav
      exact ⟨[], ys, by simpa using hys, by simp, hall⟩
    · rcases hs : stepTier o b md mp d ts with ⟨ts2, cont⟩
      rcases cont with _ | _
      · rw [runTier_stop o b md mp d ts ts2 hs, stepTier_stop_eq o b md mp d ts ts2 hs]
        exact ⟨[], [], by simp, by simp, by simp⟩
      · have hts2 := stepTier_true_of_nav o b md mp d ts ts2 u rest hnav hs
        have hmm := stepTier_measure o b md mp d ts ts2 hs
        have hlog2 : ts2.cs.popLog = ts.cs.popLog ++ [(d, true, u)] := by
          rw [hts2]
          exact popStep_popLog o b md mp d ts true u rest ts.otherq
        obtain ⟨xs, ys, hxy, hallx, hally⟩ := ih ts2 (by omega)
        rw [runTier_step o b md mp d ts ts2 hs]
        refine ⟨(d, true, u) :: xs, ys, ?_, ?_, hally⟩
        · rw [hxy, hlog2]
          simp
        · intro e he
          rcases List.mem_cons.mp he with hh | hh
          · rw [hh]
          · exact hallx e hh

/-! ## Claim theorems -/

/-- C1 counterexample: in the crawl of `oHappy`, the page `http://s/x` is
flagged soft-404 (its visible text carries a not-found phrase), yet its
record appears in the returned page list — refuting "its PageRecord is
never added to the crawl output". -/
theorem c1_counterexample :
    ¬(∀ p ∈ pagesOf (crawl oHappy "http://s" 1 5), p.is_soft_404 = false) := by
  decide

set_option linter.unusedTactic false in
/-- C1 (amended): when the loop fetches a page whose extraction succeeds
and which the detector flags soft-404, the flagged record IS appended to
`self.pages` (line 606 runs before the soft-404 gate at line 629), but the
page contributes no children: `_crawl_page` returns `([], [])`, so nothing
is enqueued for depth+1, no section count is bumped, and nothing new
enters `queued_urls`. -/
theorem c1_soft404_recorded_no_children
    (o : Oracle) (b : String) (md mp d : Nat) (ts : TierState) (u : String)
    (rest : List String) (r : Response) (m : MetaData)
    (hq : ts.navq = u :: rest)
    (hbud : ts.cs.visited.length < mp)
    (hnv : u ∉ ts.cs.visited)
    (hcf : o.canFetch u = true)
    (hf : o.fetch u = some r)
    (hhtml : r.isHtml = true)
    (hx : r.extract = some m)
    (hflag : isSoft404 u m ts.cs.homeSig = true) :
    (stepTier o b md mp d ts).2 = true ∧
    (stepTier o b md mp d ts).1.navNext = ts.navNext ∧
    (stepTier o b md mp d ts).1.otherNext = ts.otherNext ∧
    (stepTier o b md mp d ts).1.cs.pages =
      ts.cs.pages ++ [(⟨u, m.title, true, false⟩ : PageRecord)] ∧
    (stepTier o b md mp d ts).1.cs.sections = ts.cs.sections ∧
    (stepTier o b md mp d ts).1.cs.queued = ts.cs.queued.erase u := by
  unfold stepTier
  rw [if_neg (by simp [hq]), if_neg (by omega), hq]
  dsimp only
  unfold popStep
  dsimp only
  rw [if_neg hnv, if_neg (by simp [hcf]), if_neg (by simp)]
  unfold crawlPage
  rw [hf]
  dsimp only
  rw [hhtml]
  simp only [Bool.not_true, Bool.false_eq_true, if_false]
  rw [hx]
  dsimp only
  split_ifs <;>
    first
      | (exfalso; simp_all [isSoft404_none]; done)
      | (simp_all [enqueueLinks]; done)

/-- C5: at a loop iteration popping candidate `u` from the other (non-nav)
queue, with `u` unvisited, robots-allowed and its section dominant
(>40% of pages fetched so far): if `u` has been deferred fewer than 3
times, it is not fetched — its defer count is incremented and it is pushed
to the back of the same depth's other queue; once its defer count has
reached 3 it is fetched regardless (marked visited and its fetch logged).
This is lines 777-783 of `crawl`. -/
theorem c5_dominance_deferral
    (o : Oracle) (b : String) (md mp d : Nat) (ts : TierState) (u : String)
    (rest : List String)
    (hq : ts.navq = [])
    (ho : ts.otherq = u :: rest)
    (hbud : ts.cs.visited.length < mp)
    (hnv : u ∉ ts.cs.visited)
    (hcf : o.canFetch u = true)
    (hdom : checkSectionDominance ts.cs u = true) :
    (lookupNat ts.cs.defers u < 3 →
      stepTier o b md mp d ts =
        ({ ts with
            otherq := rest ++ [u],
            cs := { ts.cs with
              popLog := ts.cs.popLog ++ [(d, false, u)],
              queued := ts.cs.queued.erase u ++ [u],
              defers := setNat ts.cs.defers u (lookupNat ts.cs.defers u + 1) } }, true)) ∧
    (3 ≤ lookupNat ts.cs.defers u →
      (stepTier o b md mp d ts).1.cs.visited = ts.cs.visited ++ [u] ∧
      (stepTier o b md mp d ts).1.cs.fetchLog = ts.cs.fetchLog ++ [u]) := by
  constructor
  · intro hlt
    unfold stepTier
    rw [if_neg (by simp [ho]), if_neg (by omega), hq, ho]
    dsimp only
    unfold popStep
    dsimp only
    rw [if_neg hnv, if_neg (by simp [hcf]), if_pos ⟨hdom, rfl, hlt⟩]
  · intro hge
    unfold stepTier
    rw [if_neg (by simp [ho]), if_neg (by omega), hq, ho]
    dsimp only
    unfold popStep
    dsimp only
    rw [if_neg hnv, if_neg (by simp [hcf]),
      if_neg (fun hcon => absurd hcon.2.2 (by omega))]
    split_ifs with hguard <;>
      exact ⟨by simp [crawlPage_visited], by simp [crawlPage_fetchLog]⟩

/-- C5 witness: with one `/blog` page among one fetched page (dominance
ratio 100% > 40%), the candidate `/blog/b` popped from the other queue is
deferred and re-queued at the back when its defer count is 0, and fetched
once its defer count is 3. -/
theorem c5_dominance_deferral_witness :
    checkSectionDominance tsC5.cs "http://s/blog/b" = true ∧
    lookupNat tsC5.cs.defers "http://s/blog/b" < 3 ∧
    (stepTier oHappy "http://s" 1 5 1 tsC5).1.otherq = ["http://s/blog/b"] ∧
    3 ≤ lookupNat tsC5b.cs.defers "http://s/blog/b" ∧
    (stepTier oHappy "http://s" 1 5 1 tsC5b).1.cs.visited =
      tsC5b.cs.visited ++ ["http://s/blog/b"] :=
  ⟨by decide, by decide,
   congrArg (fun p => p.1.otherq)
     ((c5_dominance_deferral oHappy "http://s" 1 5 1 tsC5 "http://s/blog/b" [] rfl rfl
       (by decide) (by decide) (by decide) (by decide)).1 (by decide)),
   by decide,
   ((c5_dominance_deferral oHappy "http://s" 1 5 1 tsC5b "http://s/blog/b" [] rfl rfl
       (by decide) (by decide) (by decide) (by decide)).2 (by decide)).1⟩

/-- C6: at every pop within a depth tier, the nav queue takes strict
priority (whenever it is nonempty its head is the dispatched candidate,
whatever the other queue holds), each queue is consumed from the front
(FIFO), and consequently the pops a whole tier performs split into a block
of nav-class pops followed by a block of other-class pops. -/
theorem c6_nav_priority_fifo (o : Oracle) (b : String) (md mp d : Nat) :
    (∀ ts : TierState, ∀ u : String, ∀ rest : List String,
      ts.navq = u :: rest → ts.cs.visited.length < mp →
      (stepTier o b md mp d ts).1.cs.popLog = ts.cs.popLog ++ [(d, true, u)]) ∧
    (∀ ts : TierState, ∀ u : String, ∀ rest : List String,
      ts.navq = [] → ts.otherq = u :: rest → ts.cs.visited.length < mp →
      (stepTier o b md mp d ts).1.cs.popLog = ts.cs.popLog ++ [(d, false, u)]) ∧
    (∀ ts : TierState,
      ∃ xs ys, (runTier o b md mp d ts).cs.popLog = ts.cs.popLog ++ xs ++ ys ∧
        (∀ e ∈ xs, e.2.1 = true) ∧ (∀ e ∈ ys, e.2.1 = false)) := by
  refine ⟨?_, ?_, ?_⟩
  · intro ts u rest hq hbud
    unfold stepTier
    rw [if_neg (by simp [hq]), if_neg (by omega), hq]
    dsimp only
    exact popStep_popLog o b md mp d ts true u rest ts.otherq
  · intro ts u rest hq ho hbud
    unfold stepTier
    rw [if_neg (by simp [ho]), if_neg (by omega), hq, ho]
    dsimp only
    exact popStep_popLog o b md mp d ts false u [] rest
  · intro ts
    exact runTier_popLog_shape o b md mp d (tierMeasure ts) ts (le_refl _)

/-- C6 witness: with both queues nonempty the nav head is popped first,
and the tier trace splits into nav pops then other pops. -/
theorem c6_nav_priority_fifo_witness :
    (stepTier oHappy "http://s" 1 5 0 tsC6).1.cs.popLog =
      tsC6.cs.popLog ++ [(0, true, "http://s")] ∧
    (∃ xs ys, (runTier oHappy "http://s" 1 5 0 tsC6).cs.popLog =
      tsC6.cs.popLog ++ xs ++ ys ∧
      (∀ e ∈ xs, e.2.1 = true) ∧ (∀ e ∈ ys, e.2.1 = false)) :=
  ⟨(c6_nav_priority_fifo oHappy "http://s" 1 5 0).1 tsC6 "http://s" [] rfl (by decide),
   (c6_nav_priority_fifo oHappy "http://s" 1 5 0).2.2 tsC6⟩

/-- C1 witness: crawling the soft-404 page `http://s/x` at depth 1 appends
its flagged record to the page list while enqueuing nothing. -/
theorem c1_soft404_recorded_no_children_witness :
    isSoft404 "http://s/x" mX tsC1.cs.homeSig = true ∧
    (stepTier oHappy "http://s" 1 5 1 tsC1).1.cs.pages =
      tsC1.cs.pages ++ [(⟨"http://s/x", mX.title, true, false⟩ : PageRecord)] ∧
    (stepTier oHappy "http://s" 1 5 1 tsC1).1.navNext = tsC1.navNext ∧
    (stepTier oHappy "http://s" 1 5 1 tsC1).1.otherNext = tsC1.otherNext :=
  ⟨by decide,
   (c1_soft404_recorded_no_children oHappy "http://s" 1 5 1 tsC1 "http://s/x" [] rX mX
     rfl (by decide) (by decide) (by decide) (by decide) rfl rfl (by decide)).2.2.2.1,
   (c1_soft404_recorded_no_children oHappy "http://s" 1 5 1 tsC1 "http://s/x" [] rX mX
     rfl (by decide) (by decide) (by decide) (by decide) rfl rfl (by decide)).2.1,
   (c1_soft404_recorded_no_children oHappy "http://s" 1 5 1 tsC1 "http://s/x" [] rX mX
     rfl (by decide) (by decide) (by decide) (by decide) rfl rfl (by decide)).2.2.1⟩

/-- C2: the claim is right and the code has a bug.  When robots.txt
disallows the base URL (so the frontier loop fetches nothing) and the base
URL itself serves a 200 page whose metadata extraction raises, the final
fallback of `crawl` (lines 808-812) calls `_extract_metadata` outside any
`try`/`except`, and the exception escapes `crawl` instead of an empty
list being returned.  In the model this is the `Except.error` outcome. -/
theorem c2_fallback_extraction_escapes : crawl oBug "http://s" 1 5 = .error () := rfl

/-- C3 counterexample: with `max_pages = 0` the empty-result fallback
(which bypasses all gating) still fetches the base URL and returns one
page record, so `len(result) ≤ maxPages` fails. -/
theorem c3_counterexample : ¬((pagesOf (crawl oHappy "http://s" 3 0)).length ≤ 0) := by
  decide

/-- C3 (amended): every crawl returns at most `max maxPages 1` page
records — at most `maxPages` from the budgeted frontier loop, except that
the last-resort fallback can return a single record even when
`maxPages = 0` — and every loop fetch happens at a depth at most
`maxDepth` (children are only enqueued at depth+1 while depth < maxDepth). -/
theorem c3_budget_and_depth (o : Oracle) (rb : String) (md mp : Nat) (st : CrawlState)
    (h : crawl o rb md mp = .ok st) :
    st.pages.length ≤ max mp 1 ∧ ∀ e ∈ st.depthLog, e.1 ≤ md :=
  ⟨(crawl_inv o rb md mp st h).1, (crawl_inv o rb md mp st h).2.1⟩

/-- C3 witness: the crawl of the unreachable host returns no pages and its
single loop fetch happened at depth 0 ≤ 1. -/
theorem c3_budget_and_depth_witness :
    crawl oFail "http://s" 1 3 = .ok failState ∧
    failState.pages.length ≤ max 3 1 ∧ (∀ e ∈ failState.depthLog, e.1 ≤ 1) :=
  ⟨rfl,
   (c3_budget_and_depth oFail "http://s" 1 3 failState rfl).1,
   (c3_budget_and_depth oFail "http://s" 1 3 failState rfl).2⟩

/-- C4 counterexample: the homepage-signature precapture (lines 715-732)
fetches the base URL without consulting or updating the visited set, and
the frontier loop then fetches it again, so the base URL is fetched twice
in one run. -/
theorem c4_counterexample : ¬(fetchLogOf (crawl oHappy "http://s" 1 5)).Nodup := by
  decide

/-- C4 (amended): within the frontier loop, visited-set membership is
checked before every fetch and the URL is added to the visited set as it
is fetched, so no URL is fetched twice BY THE LOOP; the
homepage-signature precapture and the empty-result fallback, however, each
perform an additional fetch of the base URL outside the visited set, which
can repeat a URL already fetched. -/
theorem c4_loop_fetches_unique (o : Oracle) (rb : String) (md mp : Nat) (st : CrawlState)
    (h : crawl o rb md mp = .ok st) :
    (st.depthLog.map Prod.snd).Nodup :=
  (crawl_inv o rb md mp st h).2.2.1

/-- C4 witness: in the crawl of the unreachable host the loop fetched the
base URL exactly once. -/
theorem c4_loop_fetches_unique_witness :
    crawl oFail "http://s" 1 3 = .ok failState ∧
    (failState.depthLog.map Prod.snd).Nodup :=
  ⟨rfl, c4_loop_fetches_unique oFail "http://s" 1 3 failState rfl⟩

/-- C7 counterexample: a page and homepage signature whose titles are both
`"Untitled"` and whose best descriptions are both empty, with visible-text
length 100: condition (iii) of the claim ("title and best description both
exactly match, length < 200") holds, but `_is_soft_404` does not flag the
page, because it additionally requires both stripped fields to be
nonempty. -/
theorem c7_counterexample :
    isSoft404 "http://s/a" mC7 (some hsC7) = false ∧
    soft404Claim "http://s/a" mC7 hsC7 = true := by
  decide

/-- C7 (amended): a non-homepage page is flagged soft-404 exactly when any
of: (i) its visible text contains a not-found phrase; (ii) its canonical
URL or Open-Graph URL is present (nonempty) and normalizes to the homepage
URL; (iii) its title and best description are both nonempty after
whitespace-stripping and strip-equal to the homepage's, with visible-text
length under 200; (iv) its visible-text hash is nonempty and equals the
homepage's, with visible-text length under 400. -/
theorem c7_soft404_conditions (url : String) (m : MetaData) (hs : HomeSig) :
    isSoft404 url m (some hs) = true ↔
      (normalizeUrl url ≠ normalizeUrl hs.url ∧
        (notFoundPhrases.any (fun p => containsSub (pyLower m.visible_text) p) = true ∨
         (m.canonical.getD "" ≠ "" ∧ normalizeUrl (m.canonical.getD "") = normalizeUrl hs.url) ∨
         (m.og_url.getD "" ≠ "" ∧ normalizeUrl (m.og_url.getD "") = normalizeUrl hs.url) ∨
         (pyStrip m.title ≠ "" ∧ pyStrip m.best_description ≠ "" ∧
          pyStrip m.title = pyStrip hs.title ∧
          pyStrip m.best_description = pyStrip hs.best_description ∧
          m.visible_text_len < 200) ∨
         (m.visible_hash ≠ "" ∧ m.visible_hash = hs.visible_hash ∧
          m.visible_text_len < 400))) :=
  isSoft404_iff url m hs

/-- C8 counterexample: `normalize_url` is not idempotent.  It strips only
one trailing slash per application, so on `http://example.com//` the first
application yields `http://example.com/` and the second
`http://example.com`.  Moreover `urlparse` splits `;parameters` off the
last path segment, and stripping a trailing slash can expose a `';'` in
the new last segment: `http://e.com/a;p/` normalizes to
`http://e.com/a;p`, which normalizes to `http://e.com/a`. -/
theorem c8_counterexample :
    ¬(normalizeUrl (normalizeUrl "http://example.com//") =
      normalizeUrl "http://example.com//") ∧
    ¬(normalizeUrl (normalizeUrl "http://e.com/a;p/") =
      normalizeUrl "http://e.com/a;p/") := by
  decide

/-- C8 (amended): `normalize(normalize(u)) = normalize(u)` holds for every
URL `u` that carries an explicit scheme and whose normalized form neither
ends in a slash nor contains a `';'`.  It fails when the pre-fragment part
of `u` ends in a double slash (only one trailing slash is stripped per
application, e.g. `http://example.com//`); when stripping the trailing
slash exposes a `';'` in the new last path segment, which the reparse then
cuts as `;parameters` (e.g. `http://e.com/a;p/`); and for scheme-less URLs
(the first application prepends `://`, which the second application parses
differently). -/
theorem c8_normalize_idempotent_on_schemed (u : String)
    (h1 : (pyUrlparse u).scheme ≠ "")
    (h2 : ¬((normalizeUrl u).data.getLast? = some '/'))
    (h3 : ¬(';' ∈ (normalizeUrl u).data)) :
    normalizeUrl (normalizeUrl u) = normalizeUrl u :=
  normalizeUrl_idem_of u h1 h2 h3

/-- C8 witness: idempotence at a well-formed URL. -/
theorem c8_normalize_idempotent_on_schemed_witness :
    (pyUrlparse "http://example.com/about").scheme ≠ "" ∧
    ¬((normalizeUrl "http://example.com/about").data.getLast? = some '/') ∧
    ¬(';' ∈ (normalizeUrl "http://example.com/about").data) ∧
    normalizeUrl (normalizeUrl "http://example.com/about") =
      normalizeUrl "http://example.com/about" :=
  ⟨by decide, by decide, by decide,
   c8_normalize_idempotent_on_schemed "http://example.com/about"
     (by decide) (by decide) (by decide)⟩

/-- C9: `_dedupe_urls_by_locale` is idempotent — deduplicating an already
deduplicated list returns it unchanged, elementwise in order.  Each group
keeps exactly one representative, that representative's locale-stripped
key equals its group's key, so re-grouping a deduplicated list yields only
singleton groups. -/
theorem c9_dedupe_idempotent (urls : List String) :
    dedupeUrlsByLocale (dedupeUrlsByLocale urls) = dedupeUrlsByLocale urls :=
  dedupe_idem_general urls

/-- C10: (1) with no homepage signature captured, `_is_soft_404` never
flags any page; (2) a page whose normalized URL equals the homepage
signature's URL is never flagged; (3) in any completed crawl whose final
state carries no homepage signature (the base URL was never successfully
fetched and extracted), no returned page record is flagged soft-404. -/
theorem c10_homepage_never_soft404 :
    (∀ (u : String) (m : MetaData), isSoft404 u m none = false) ∧
    (∀ (u : String) (m : MetaData) (hs : HomeSig),
      normalizeUrl u = normalizeUrl hs.url → isSoft404 u m (some hs) = false) ∧
    (∀ (o : Oracle) (rb : String) (md mp : Nat) (st : CrawlState),
      crawl o rb md mp = .ok st → st.homeSig = none →
      ∀ p ∈ st.pages, p.is_soft_404 = false) := by
  refine ⟨fun u m => rfl, ?_, ?_⟩
  · intro u m hs h
    unfold isSoft404
    dsimp only
    rw [if_pos h]
  · intro o rb md mp st h hn
    exact (crawl_inv o rb md mp st h).2.2.2 hn

/-- C10 witness: the homepage itself (trailing-slash variant included) is
not flagged against its own signature, and the crawl of the unreachable
host (no signature ever captured) flags nothing. -/
theorem c10_homepage_never_soft404_witness :
    normalizeUrl "http://s/" = normalizeUrl "http://s" ∧
    isSoft404 "http://s/" mX (some (homeSigOf "http://s" mHome)) = false ∧
    crawl oFail "http://s" 1 3 = .ok failState ∧
    (∀ p ∈ failState.pages, p.is_soft_404 = false) :=
  ⟨by decide,
   c10_homepage_never_soft404.2.1 "http://s/" mX (homeSigOf "http://s" mHome) (by decide),
   rfl,
   c10_homepage_never_soft404.2.2 oFail "http://s" 1 3 failState rfl rfl⟩

end Crawler
